import Mathlib

/-!
Verification of the `linearstories` markdown ⇄ issue-tracker sync tool.

We shallowly embed the TypeScript sources:
  * `src/markdown/parser.ts`  (`parseMarkdownFile`, the metadata extractors,
    and `writeBackIds` from `src/markdown/writer.ts`),
  * `src/markdown/serializer.ts` (`serializeStories`),
  * `src/linear/resolvers.ts` (the `Resolver` class and its caches),
  * `src/linear/issues.ts` (create/update/fetch gateway),
  * `src/linear/filters.ts` (`buildIssueFilter`),
  * `src/sync/importer.ts` (`importStories`, `processStory`, `buildSummary`),
  * `src/sync/exporter.ts` (`exportStories`, `buildFilterInput`).

Strings are modelled as `List Char` so that the line- and character-level
manipulations of the code can be reasoned about by list induction.  JavaScript
`String.prototype.trim` is modelled over the ASCII whitespace characters that
occur in the repository's documents; `Number(...)` is modelled on integer
syntax (the repository only ever serializes integers).  The remote service
client injected into the code is modelled as an `Env` of query functions
returning `Except`, with a trace of issued calls (`Call`) standing in for the
observable remote side effects, and the async semantics collapsed to the
sequential order the single-threaded code executes in.
-/

namespace LS

/-- Characters of a JavaScript string. -/
abbrev Str := List Char

/-- Whitespace, as used by `trim()` on the documents' (ASCII) content. -/
def isWs (c : Char) : Bool :=
  c = ' ' || c = '\t' || c = '\n' || c = '\r'

/-- Model of JavaScript `s.trim()`. -/
def jsTrim (s : Str) : Str :=
  ((s.dropWhile isWs).reverse.dropWhile isWs).reverse

/-- Model of JavaScript `s.split(sep)` for a single-character separator. -/
def splitOnChar (c : Char) : Str → List Str
  | [] => [[]]
  | x :: xs =>
    let r := splitOnChar c xs
    if x = c then [] :: r
    else
      match r with
      | [] => [[x]]
      | h :: t => (x :: h) :: t

/-- `splitOnChar` never returns the empty list of chunks. -/
theorem splitOnChar_ne_nil (c : Char) (s : Str) : splitOnChar c s ≠ [] := by
  cases s with
  | nil => simp [splitOnChar]
  | cons x xs =>
    simp only [splitOnChar]
    by_cases h : x = c
    · simp [h]
    · simp only [if_neg h]
      cases splitOnChar c xs <;> simp

/-- Model of `array.join(sep)` / `lines.join("\n")` for a char separator. -/
def joinChar (c : Char) : List Str → Str
  | [] => []
  | [x] => x
  | x :: y :: t => x ++ c :: joinChar c (y :: t)

/-- Splitting lines of a document. -/
def splitLines (s : Str) : List Str := splitOnChar '\n' s

/-- Joining lines of a document. -/
def joinLines (ls : List Str) : Str := joinChar '\n' ls

theorem splitOnChar_cons_pos (c : Char) (xs : Str) :
    splitOnChar c (c :: xs) = [] :: splitOnChar c xs := by
  simp [splitOnChar]

theorem splitOnChar_cons_neg (c x : Char) (xs : Str) (h : ¬ x = c)
    (hd : Str) (tl : List Str) (hr : splitOnChar c xs = hd :: tl) :
    splitOnChar c (x :: xs) = (x :: hd) :: tl := by
  simp [splitOnChar, h, hr]

theorem splitOnChar_exists_cons (c : Char) (s : Str) :
    ∃ hd tl, splitOnChar c s = hd :: tl := by
  rcases e : splitOnChar c s with _ | ⟨hd, tl⟩
  · exact absurd e (splitOnChar_ne_nil c s)
  · exact ⟨hd, tl, rfl⟩

theorem splitOnChar_not_mem (c : Char) (s : Str) :
    ∀ l ∈ splitOnChar c s, c ∉ l := by
  induction s with
  | nil =>
    intro l hl
    simp only [splitOnChar, List.mem_singleton] at hl
    simp [hl]
  | cons x xs ih =>
    intro l hl
    by_cases h : x = c
    · rw [h, splitOnChar_cons_pos] at hl
      rcases List.mem_cons.mp hl with rfl | hm
      · simp
      · exact ih l hm
    · obtain ⟨hd, tl, hr⟩ := splitOnChar_exists_cons c xs
      rw [splitOnChar_cons_neg c x xs h hd tl hr] at hl
      rcases List.mem_cons.mp hl with rfl | hm
      · intro hmem
        rcases List.mem_cons.mp hmem with h1 | h1
        · exact h h1.symm
        · exact ih hd (hr ▸ List.mem_cons_self _ _) h1
      · exact ih l (hr ▸ List.mem_cons_of_mem _ hm)

theorem join_split (c : Char) (s : Str) : joinChar c (splitOnChar c s) = s := by
  induction s with
  | nil => simp [splitOnChar, joinChar]
  | cons x xs ih =>
    simp only [splitOnChar]
    by_cases h : x = c
    · subst h
      simp only [if_pos rfl]
      rcases hr : splitOnChar x xs with _ | ⟨hd, tl⟩
      · exact absurd hr (splitOnChar_ne_nil x xs)
      · rw [hr] at ih
        simpa [joinChar] using ih
    · simp only [if_neg h]
      rcases hr : splitOnChar c xs with _ | ⟨hd, tl⟩
      · exact absurd hr (splitOnChar_ne_nil c xs)
      · rw [hr] at ih
        cases tl with
        | nil => simpa [joinChar] using ih
        | cons y t => simpa [joinChar] using ih

theorem splitOnChar_eq_of_not_mem (c : Char) (x : Str) (hx : c ∉ x) :
    splitOnChar c x = [x] := by
  induction x with
  | nil => rfl
  | cons a as ih =>
    have ha : ¬ a = c := fun hac => hx (by simp [hac])
    have has : c ∉ as := fun hc => hx (List.mem_cons_of_mem _ hc)
    exact splitOnChar_cons_neg c a as ha as [] (ih has)

theorem splitOnChar_append (c : Char) (x rest : Str) (hx : c ∉ x) :
    splitOnChar c (x ++ c :: rest) = x :: splitOnChar c rest := by
  induction x with
  | nil => simpa using splitOnChar_cons_pos c rest
  | cons a as ih =>
    have ha : ¬ a = c := fun hac => hx (by simp [hac])
    have has : c ∉ as := fun hc => hx (List.mem_cons_of_mem _ hc)
    obtain ⟨hd, tl, hr⟩ := splitOnChar_exists_cons c rest
    have h2 : splitOnChar c (as ++ c :: rest) = as :: hd :: tl := by
      rw [ih has, hr]
    rw [List.cons_append]
    rw [splitOnChar_cons_neg c a (as ++ c :: rest) ha as (hd :: tl) h2, hr]

theorem split_join (c : Char) (ls : List Str) (hne : ls ≠ [])
    (h : ∀ l ∈ ls, c ∉ l) : splitOnChar c (joinChar c ls) = ls := by
  induction ls with
  | nil => exact absurd rfl hne
  | cons x t ih =>
    cases t with
    | nil => exact splitOnChar_eq_of_not_mem c x (h x (List.mem_cons_self _ _))
    | cons y t2 =>
      have htail : splitOnChar c (joinChar c (y :: t2)) = y :: t2 :=
        ih (by simp) (fun l hl => h l (List.mem_cons_of_mem _ hl))
      have hx : c ∉ x := h x (List.mem_cons_self _ _)
      calc splitOnChar c (joinChar c (x :: y :: t2))
          = splitOnChar c (x ++ c :: joinChar c (y :: t2)) := rfl
        _ = x :: splitOnChar c (joinChar c (y :: t2)) := splitOnChar_append c _ _ hx
        _ = x :: y :: t2 := by rw [htail]

theorem length_dropWhile_le (p : Str → Bool) (l : List Str) :
    (l.dropWhile p).length ≤ l.length := by
  induction l with
  | nil => simp
  | cons x xs ih =>
    by_cases h : p x
    · rw [List.dropWhile_cons_of_pos h]
      exact Nat.le_succ_of_le ih
    · rw [List.dropWhile_cons_of_neg h]

/-! ## Selective write-back editor (`writeBackIds`, src/markdown/writer.ts) -/

/-- The `"## "` story-boundary marker. -/
def h2Marker : Str := "## ".toList

/-- The `"```yaml"` opening fence text compared against trimmed lines. -/
def fenceYaml : Str := "```yaml".toList

/-- The `"```"` closing fence text compared against trimmed lines. -/
def fenceClose : Str := "```".toList

/-- The `linear_id:` key prefix matched by `/^linear_id:/`. -/
def idKey : Str := "linear_id:".toList

/-- The `linear_url:` key prefix matched by `/^linear_url:/`. -/
def urlKey : Str := "linear_url:".toList

/-- One element of the `updates` argument of `writeBackIds`. -/
structure WriteBackUpdate where
  title : Str
  linearId : Str
  linearUrl : Str
deriving DecidableEq, Repr

/-- `updateMap.get(title)`: the map is built by insertion, so a later update
with the same title overwrites an earlier one. -/
def updLookup (updates : List WriteBackUpdate) (t : Str) : Option WriteBackUpdate :=
  updates.reverse.find? (fun u => u.title == t)

/-- `line.startsWith("## ")`. -/
def isH2 (l : Str) : Bool := h2Marker.isPrefixOf l

/-- `line.trim() === ""`. -/
def isBlank (l : Str) : Bool := jsTrim l == ([] : Str)

/-- The emitted `linear_id: <id>` line. -/
def idLine (u : WriteBackUpdate) : Str := idKey ++ ' ' :: u.linearId

/-- The emitted `linear_url: <url>` line. -/
def urlLine (u : WriteBackUpdate) : Str := urlKey ++ ' ' :: u.linearUrl

/-- A line whose trimmed form is not the closing fence (the loop guard
`lines[i]?.trim() !== "\x60\x60\x60"`). -/
def notFenceClose (l : Str) : Bool := !(jsTrim l == fenceClose)

/-- Rewriting of one line inside a matched story's YAML block: `linear_id:`
and `linear_url:` lines are replaced, all others pass through. -/
def rewriteYamlLine (u : WriteBackUpdate) (l : Str) : Str :=
  if idKey.isPrefixOf l then idLine u
  else if urlKey.isPrefixOf l then urlLine u
  else l

/-- The lines the inner YAML-block loop of `writeBackIds` emits, given the
lines `inner` that follow the opening fence: each consumed line is rewritten,
missing `linear_id`/`linear_url` lines are appended before the closing fence,
and the closing fence (when present) is copied. -/
def wbBlockOut (u : WriteBackUpdate) (inner : List Str) : List Str :=
  (inner.takeWhile notFenceClose).map (rewriteYamlLine u)
    ++ (if (inner.takeWhile notFenceClose).any (fun l => idKey.isPrefixOf l)
        then [] else [idLine u])
    ++ (if (inner.takeWhile notFenceClose).any (fun l => urlKey.isPrefixOf l)
        then [] else [urlLine u])
    ++ (inner.dropWhile notFenceClose).take 1

/-- The lines remaining after the inner YAML-block loop of `writeBackIds`. -/
def wbBlockRem (inner : List Str) : List Str :=
  (inner.dropWhile notFenceClose).drop 1

/-- The main line-scanning loop of `writeBackIds`. -/
def wbMain (updates : List WriteBackUpdate) : List Str → List Str
  | [] => []
  | l :: rest =>
    if isH2 l then
      match updLookup updates (jsTrim (l.drop 3)) with
      | none => l :: wbMain updates rest
      | some u =>
        match hafter : rest.dropWhile isBlank with
        | [] =>
          l :: [] :: fenceYaml :: idLine u :: urlLine u :: fenceClose ::
            wbMain updates rest
        | fence :: inner =>
          if jsTrim fence == fenceYaml then
            l :: (rest.takeWhile isBlank ++ fence ::
              (wbBlockOut u inner ++ wbMain updates (wbBlockRem inner)))
          else
            l :: [] :: fenceYaml :: idLine u :: urlLine u :: fenceClose ::
              wbMain updates rest
    else
      l :: wbMain updates rest
termination_by ls => ls.length
decreasing_by
  all_goals simp only [List.length_cons]
  all_goals try omega
  all_goals
    have h1 : (wbBlockRem inner).length ≤ inner.length := by
      have h2 := length_dropWhile_le notFenceClose inner
      simp only [wbBlockRem]
      rw [List.length_drop]
      omega
  all_goals
    (have h3 := length_dropWhile_le isBlank t
     rw [hafter] at h3
     simp only [List.length_cons] at h3
     omega)

/-- `writeBackIds(filePath, content, updates)`: the file path is unused by the
function (it only reads `content`), so it is omitted here. -/
def writeBackIds (content : Str) (updates : List WriteBackUpdate) : Str :=
  if updates.isEmpty then content
  else joinLines (wbMain updates (splitLines content))

/-- Well-formedness of a document's lines with respect to an update set: each
matched story that has an opening YAML fence closes it before the next
`## ` heading (no heading line is swallowed by the fence-scanning loop). -/
def wbWF (updates : List WriteBackUpdate) : List Str → Bool
  | [] => true
  | l :: rest =>
    if isH2 l then
      match updLookup updates (jsTrim (l.drop 3)) with
      | none => wbWF updates rest
      | some _ =>
        match hafter : rest.dropWhile isBlank with
        | [] => wbWF updates rest
        | fence :: inner =>
          if jsTrim fence == fenceYaml then
            (inner.takeWhile notFenceClose).all (fun x => !(isH2 x)) &&
              wbWF updates (wbBlockRem inner)
          else wbWF updates rest
    else wbWF updates rest
termination_by ls => ls.length
decreasing_by
  all_goals simp only [List.length_cons]
  all_goals try omega
  all_goals
    have h1 : (wbBlockRem inner).length ≤ inner.length := by
      have h2 := length_dropWhile_le notFenceClose inner
      simp only [wbBlockRem]
      rw [List.length_drop]
      omega
  all_goals
    (have h3 := length_dropWhile_le isBlank t
     rw [hafter] at h3
     simp only [List.length_cons] at h3
     omega)

/-- Title attached to a segment opened by a heading line. -/
def segTitle (l : Str) : Option Str := some (jsTrim (l.drop 3))

/-- Split a document's lines into the preamble (title `none`) and the story
segments, each carrying its heading's title and all its lines (heading line
included). -/
def segsFrom (t : Option Str) (acc : List Str) :
    List Str → List (Option Str × List Str)
  | [] => [(t, acc.reverse)]
  | l :: rest =>
    if isH2 l then (t, acc.reverse) :: segsFrom (segTitle l) [l] rest
    else segsFrom t (l :: acc) rest

/-- The segments of a document's lines. -/
def segs (ls : List Str) : List (Option Str × List Str) := segsFrom none [] ls

/-- Whether a segment title belongs to the update set. -/
def matchedTitle (updates : List WriteBackUpdate) : Option Str → Bool
  | none => false
  | some t => (updLookup updates t).isSome

/-- Agreement of an output segment with the corresponding input segment:
the titles coincide, and a segment whose title is not an update key is
byte-identical. -/
def segAgree (updates : List WriteBackUpdate) (a b : Option Str × List Str) :
    Prop :=
  a.1 = b.1 ∧ (matchedTitle updates b.1 = false → a.2 = b.2)

/-! ### Supporting lemmas about trimming and headings -/

theorem jsTrim_eq_nil_iff (s : Str) :
    jsTrim s = [] ↔ ∀ c ∈ s, isWs c = true := by
  unfold jsTrim
  rw [List.reverse_eq_nil_iff, List.dropWhile_eq_nil_iff]
  constructor
  · intro h c hc
    have hsplit : c ∈ s.takeWhile isWs ++ s.dropWhile isWs := by
      rw [List.takeWhile_append_dropWhile]
      exact hc
    rcases List.mem_append.mp hsplit with hm | hm
    · exact List.mem_takeWhile_imp hm
    · exact h c (List.mem_reverse.mpr hm)
  · intro h c hc
    exact h c ((List.dropWhile_sublist isWs).subset (List.mem_reverse.mp hc))

theorem jsTrim_cons_of_not_ws (c : Char) (s : Str) (h : isWs c = false) :
    ∃ s2, jsTrim (c :: s) = c :: s2 := by
  have hdw : (c :: s).dropWhile isWs = c :: s :=
    List.dropWhile_cons_of_neg (by simp [h])
  have key : ∀ xs : Str, ∃ ys : Str,
      (xs ++ [c]).dropWhile isWs = ys ++ [c] := by
    intro xs
    induction xs with
    | nil =>
      refine ⟨[], ?_⟩
      simpa using List.dropWhile_cons_of_neg (p := isWs) (a := c) (l := []) (by simp [h])
    | cons x xs ih =>
      by_cases hx : isWs x = true
      · obtain ⟨ys, hys⟩ := ih
        refine ⟨ys, ?_⟩
        rw [List.cons_append, List.dropWhile_cons_of_pos hx, hys]
      · refine ⟨x :: xs, ?_⟩
        rw [List.cons_append, List.dropWhile_cons_of_neg (by simp [hx])]
  unfold jsTrim
  rw [hdw]
  have hrev : (c :: s).reverse = s.reverse ++ [c] := by simp
  rw [hrev]
  obtain ⟨ys, hys⟩ := key s.reverse
  rw [hys]
  exact ⟨ys.reverse, by simp⟩

theorem isH2_elim (l : Str) (h : isH2 l = true) :
    ∃ s, l = '#' :: '#' :: ' ' :: s := by
  simp only [isH2] at h
  match l with
  | [] => simp [List.isPrefixOf] at h
  | [a] => simp [h2Marker, List.isPrefixOf] at h
  | [a, b] => simp [h2Marker, List.isPrefixOf] at h
  | a :: b :: c :: s =>
    have hm : h2Marker = ['#', '#', ' '] := rfl
    rw [hm] at h
    simp only [List.isPrefixOf, Bool.and_eq_true, beq_iff_eq] at h
    obtain ⟨h1, h2, h3, -⟩ := h
    exact ⟨s, by rw [← h1, ← h2, ← h3]⟩

theorem isH2_cons_ne (c : Char) (s : Str) (h : ¬ c = '#') :
    isH2 (c :: s) = false := by
  by_contra hc
  obtain ⟨s2, hs2⟩ := isH2_elim (c :: s) (by revert hc; cases isH2 (c :: s) <;> simp)
  exact h (by injection hs2)

theorem isH2_nil : isH2 ([] : Str) = false := by decide

theorem isBlank_not_h2 (l : Str) (h : isBlank l = true) : isH2 l = false := by
  by_contra hc
  have hH2 : isH2 l = true := by revert hc; cases isH2 l <;> simp
  obtain ⟨s, rfl⟩ := isH2_elim l hH2
  have := (jsTrim_eq_nil_iff _).mp (by simpa [isBlank] using h)
  have h1 := this '#' (by simp)
  simp [isWs] at h1

theorem trim_head_not_h2 (l : Str) (c : Char) (s2 : Str)
    (hc : ¬ c = '#') (h : jsTrim l = c :: s2) : isH2 l = false := by
  by_contra hcon
  have hH2 : isH2 l = true := by revert hcon; cases isH2 l <;> simp
  obtain ⟨s, rfl⟩ := isH2_elim l hH2
  obtain ⟨s3, hs3⟩ := jsTrim_cons_of_not_ws '#' ('#' :: ' ' :: s) (by decide)
  rw [hs3] at h
  exact hc (by injection h with h1 _; exact h1.symm)

theorem fence_not_h2 (l : Str) (h : (jsTrim l == fenceYaml) = true) :
    isH2 l = false := by
  have he : jsTrim l = fenceYaml := by simpa using h
  exact trim_head_not_h2 l '`' _ (by decide) he

theorem fenceClose_not_h2 (l : Str) (h : notFenceClose l = false) :
    isH2 l = false := by
  have he : jsTrim l = fenceClose := by
    simp only [notFenceClose, Bool.not_eq_false] at h
    simpa using h
  exact trim_head_not_h2 l '`' _ (by decide) he

theorem isH2_idLine (u : WriteBackUpdate) : isH2 (idLine u) = false := by
  exact isH2_cons_ne 'l' _ (by decide)

theorem isH2_urlLine (u : WriteBackUpdate) : isH2 (urlLine u) = false := by
  exact isH2_cons_ne 'l' _ (by decide)

theorem isH2_fenceYaml : isH2 fenceYaml = false := by decide

theorem isH2_fenceClose : isH2 fenceClose = false := by decide

theorem rewriteYamlLine_not_h2 (u : WriteBackUpdate) (l : Str)
    (h : isH2 l = false) : isH2 (rewriteYamlLine u l) = false := by
  unfold rewriteYamlLine
  by_cases h1 : idKey.isPrefixOf l
  · rw [if_pos h1]; exact isH2_idLine u
  · rw [if_neg h1]
    by_cases h2 : urlKey.isPrefixOf l
    · rw [if_pos h2]; exact isH2_urlLine u
    · rw [if_neg h2]; exact h

theorem dropWhile_head_false {α : Type} {p : α → Bool} {l : List α} {x : α}
    {xs : List α} (h : l.dropWhile p = x :: xs) : p x = false := by
  induction l with
  | nil => simp at h
  | cons a as ih =>
    by_cases ha : p a = true
    · rw [List.dropWhile_cons_of_pos ha] at h
      exact ih h
    · rw [List.dropWhile_cons_of_neg ha] at h
      injection h with h1 _
      subst h1
      simpa using ha

/-! ### Unfolding lemmas for `wbMain` and `wbWF` -/

theorem wbMain_nil (updates : List WriteBackUpdate) : wbMain updates [] = [] := by
  simp [wbMain]

theorem wbMain_not_h2 (updates : List WriteBackUpdate) (l : Str)
    (rest : List Str) (h : ¬ isH2 l = true) :
    wbMain updates (l :: rest) = l :: wbMain updates rest := by
  rw [wbMain, if_neg h]

theorem wbMain_h2_none (updates : List WriteBackUpdate) (l : Str)
    (rest : List Str) (h : isH2 l = true)
    (hl : updLookup updates (jsTrim (l.drop 3)) = none) :
    wbMain updates (l :: rest) = l :: wbMain updates rest := by
  rw [wbMain, if_pos h, hl]

theorem wbMain_h2_noafter (updates : List WriteBackUpdate) (l : Str)
    (rest : List Str) (u : WriteBackUpdate) (h : isH2 l = true)
    (hl : updLookup updates (jsTrim (l.drop 3)) = some u)
    (ha : rest.dropWhile isBlank = []) :
    wbMain updates (l :: rest) =
      l :: [] :: fenceYaml :: idLine u :: urlLine u :: fenceClose ::
        wbMain updates rest := by
  rw [wbMain, if_pos h, hl]
  dsimp only []
  split
  · rfl
  · rename_i fence2 inner2 heq
    rw [ha] at heq
    simp at heq

theorem wbMain_h2_fence (updates : List WriteBackUpdate) (l : Str)
    (rest : List Str) (u : WriteBackUpdate) (h : isH2 l = true)
    (hl : updLookup updates (jsTrim (l.drop 3)) = some u)
    (fence : Str) (inner : List Str)
    (ha : rest.dropWhile isBlank = fence :: inner)
    (hf : (jsTrim fence == fenceYaml) = true) :
    wbMain updates (l :: rest) =
      l :: (rest.takeWhile isBlank ++ fence ::
        (wbBlockOut u inner ++ wbMain updates (wbBlockRem inner))) := by
  rw [wbMain, if_pos h, hl]
  dsimp only []
  split
  · rename_i heq
    rw [ha] at heq
    simp at heq
  · rename_i fence2 inner2 heq
    rw [ha] at heq
    injection heq with h1 h2
    subst h1
    subst h2
    rw [if_pos hf]

theorem wbMain_h2_notfence (updates : List WriteBackUpdate) (l : Str)
    (rest : List Str) (u : WriteBackUpdate) (h : isH2 l = true)
    (hl : updLookup updates (jsTrim (l.drop 3)) = some u)
    (fence : Str) (inner : List Str)
    (ha : rest.dropWhile isBlank = fence :: inner)
    (hf : ¬ (jsTrim fence == fenceYaml) = true) :
    wbMain updates (l :: rest) =
      l :: [] :: fenceYaml :: idLine u :: urlLine u :: fenceClose ::
        wbMain updates rest := by
  rw [wbMain, if_pos h, hl]
  dsimp only []
  split
  · rename_i heq
    rw [ha] at heq
    try simp at heq
    try rfl
  · rename_i fence2 inner2 heq
    rw [ha] at heq
    injection heq with h1 h2
    subst h1
    subst h2
    rw [if_neg hf]

theorem wbWF_nil (updates : List WriteBackUpdate) : wbWF updates [] = true := by
  simp [wbWF]

theorem wbWF_not_h2 (updates : List WriteBackUpdate) (l : Str)
    (rest : List Str) (h : ¬ isH2 l = true) :
    wbWF updates (l :: rest) = wbWF updates rest := by
  rw [wbWF, if_neg h]

theorem wbWF_h2_none (updates : List WriteBackUpdate) (l : Str)
    (rest : List Str) (h : isH2 l = true)
    (hl : updLookup updates (jsTrim (l.drop 3)) = none) :
    wbWF updates (l :: rest) = wbWF updates rest := by
  rw [wbWF, if_pos h, hl]

theorem wbWF_h2_noafter (updates : List WriteBackUpdate) (l : Str)
    (rest : List Str) (u : WriteBackUpdate) (h : isH2 l = true)
    (hl : updLookup updates (jsTrim (l.drop 3)) = some u)
    (ha : rest.dropWhile isBlank = []) :
    wbWF updates (l :: rest) = wbWF updates rest := by
  rw [wbWF, if_pos h, hl]
  dsimp only []
  split
  · rfl
  · rename_i fence2 inner2 heq
    rw [ha] at heq
    simp at heq

theorem wbWF_h2_fence (updates : List WriteBackUpdate) (l : Str)
    (rest : List Str) (u : WriteBackUpdate) (h : isH2 l = true)
    (hl : updLookup updates (jsTrim (l.drop 3)) = some u)
    (fence : Str) (inner : List Str)
    (ha : rest.dropWhile isBlank = fence :: inner)
    (hf : (jsTrim fence == fenceYaml) = true) :
    wbWF updates (l :: rest) =
      ((inner.takeWhile notFenceClose).all (fun x => !(isH2 x)) &&
        wbWF updates (wbBlockRem inner)) := by
  rw [wbWF, if_pos h, hl]
  dsimp only []
  split
  · rename_i heq
    rw [ha] at heq
    simp at heq
  · rename_i fence2 inner2 heq
    rw [ha] at heq
    injection heq with h1 h2
    subst h1
    subst h2
    rw [if_pos hf]

theorem wbWF_h2_notfence (updates : List WriteBackUpdate) (l : Str)
    (rest : List Str) (u : WriteBackUpdate) (h : isH2 l = true)
    (hl : updLookup updates (jsTrim (l.drop 3)) = some u)
    (fence : Str) (inner : List Str)
    (ha : rest.dropWhile isBlank = fence :: inner)
    (hf : ¬ (jsTrim fence == fenceYaml) = true) :
    wbWF updates (l :: rest) = wbWF updates rest := by
  rw [wbWF, if_pos h, hl]
  dsimp only []
  split
  · rename_i heq
    rw [ha] at heq
    try simp at heq
    try rfl
  · rename_i fence2 inner2 heq
    rw [ha] at heq
    injection heq with h1 h2
    subst h1
    subst h2
    rw [if_neg hf]

/-! ### Segmentation lemmas -/

theorem segsFrom_cons_not_h2 (t : Option Str) (acc : List Str) (l : Str)
    (rest : List Str) (h : isH2 l = false) :
    segsFrom t acc (l :: rest) = segsFrom t (l :: acc) rest := by
  rw [segsFrom, h]
  simp

theorem segsFrom_cons_h2 (t : Option Str) (acc : List Str) (l : Str)
    (rest : List Str) (h : isH2 l = true) :
    segsFrom t acc (l :: rest) =
      (t, acc.reverse) :: segsFrom (segTitle l) [l] rest := by
  rw [segsFrom, h]
  simp

theorem segsFrom_append_not_h2 (t : Option Str) (acc : List Str)
    (xs ys : List Str) (h : ∀ x ∈ xs, isH2 x = false) :
    segsFrom t acc (xs ++ ys) = segsFrom t (xs.reverse ++ acc) ys := by
  induction xs generalizing acc with
  | nil => simp
  | cons x xs ih =>
    rw [List.cons_append,
      segsFrom_cons_not_h2 t acc x _ (h x (List.mem_cons_self _ _)),
      ih (x :: acc) (fun y hy => h y (List.mem_cons_of_mem _ hy))]
    simp


/-! ### The write-back frame property -/

theorem wbBlockOut_not_h2 (u : WriteBackUpdate) (inner : List Str)
    (hcons : ∀ x ∈ inner.takeWhile notFenceClose, isH2 x = false) :
    ∀ x ∈ wbBlockOut u inner, isH2 x = false := by
  intro x hx
  unfold wbBlockOut at hx
  simp only [List.mem_append] at hx
  rcases hx with ((hx | hx) | hx) | hx
  · obtain ⟨y, hy, rfl⟩ := List.mem_map.mp hx
    exact rewriteYamlLine_not_h2 u y (hcons y hy)
  · have hxe : x = idLine u := by
      rcases hb : (inner.takeWhile notFenceClose).any (fun l => idKey.isPrefixOf l) with _ | _ <;>
        rw [hb] at hx <;> simpa using hx
    rw [hxe]
    exact isH2_idLine u
  · have hxe : x = urlLine u := by
      rcases hb : (inner.takeWhile notFenceClose).any (fun l => urlKey.isPrefixOf l) with _ | _ <;>
        rw [hb] at hx <;> simpa using hx
    rw [hxe]
    exact isH2_urlLine u
  · rcases hdp : inner.dropWhile notFenceClose with _ | ⟨cl, r2⟩
    · rw [hdp] at hx
      simp at hx
    · rw [hdp] at hx
      have hxe : x = cl := by simpa using hx
      rw [hxe]
      exact fenceClose_not_h2 cl (dropWhile_head_false hdp)

theorem cls_not_h2 (inner : List Str) :
    ∀ x ∈ (inner.dropWhile notFenceClose).take 1, isH2 x = false := by
  intro x hx
  rcases hdp : inner.dropWhile notFenceClose with _ | ⟨cl, r2⟩
  · rw [hdp] at hx
    simp at hx
  · rw [hdp] at hx
    have hxe : x = cl := by simpa using hx
    rw [hxe]
    exact fenceClose_not_h2 cl (dropWhile_head_false hdp)

theorem inner_decomp (inner : List Str) :
    inner.takeWhile notFenceClose ++
      ((inner.dropWhile notFenceClose).take 1 ++ wbBlockRem inner) = inner := by
  rw [wbBlockRem, List.take_append_drop, List.takeWhile_append_dropWhile]

theorem matched_segTitle (updates : List WriteBackUpdate) (l : Str)
    (u : WriteBackUpdate)
    (hl : updLookup updates (jsTrim (l.drop 3)) = some u) :
    matchedTitle updates (segTitle l) = true := by
  simp [matchedTitle, segTitle, hl]

theorem wb_segs_agree (updates : List WriteBackUpdate) (ls : List Str) :
    wbWF updates ls = true →
    ∀ (t : Option Str) (acc acc2 : List Str),
      (matchedTitle updates t = false → acc = acc2) →
      List.Forall₂ (segAgree updates)
        (segsFrom t acc (wbMain updates ls)) (segsFrom t acc2 ls) := by
  induction ls using wbMain.induct updates with
  | case1 =>
    intro hwf t acc acc2 hacc
    rw [wbMain_nil]
    exact List.Forall₂.cons ⟨rfl, fun hm => by rw [hacc hm]⟩ List.Forall₂.nil
  | case2 l rest hH2 hlook ih =>
    intro hwf t acc acc2 hacc
    rw [wbMain_h2_none _ _ _ hH2 hlook, segsFrom_cons_h2 _ _ _ _ hH2,
      segsFrom_cons_h2 _ _ _ _ hH2]
    refine List.Forall₂.cons ⟨rfl, fun hm => by rw [hacc hm]⟩ ?_
    exact ih (by rwa [wbWF_h2_none _ _ _ hH2 hlook] at hwf)
      (segTitle l) [l] [l] (fun _ => rfl)
  | case3 l rest hH2 u hlook hdrop ih =>
    intro hwf t acc acc2 hacc
    rw [wbMain_h2_noafter _ _ _ _ hH2 hlook hdrop,
      segsFrom_cons_h2 _ _ _ _ hH2, segsFrom_cons_h2 _ _ _ _ hH2]
    refine List.Forall₂.cons ⟨rfl, fun hm => by rw [hacc hm]⟩ ?_
    have heq : ([] :: fenceYaml :: idLine u :: urlLine u :: fenceClose ::
        wbMain updates rest)
        = [[], fenceYaml, idLine u, urlLine u, fenceClose] ++
          wbMain updates rest := rfl
    rw [heq, segsFrom_append_not_h2 _ _ _ _ ?hno]
    case hno =>
      intro x hx
      simp only [List.mem_cons, List.not_mem_nil, or_false] at hx
      rcases hx with rfl | rfl | rfl | rfl | rfl
      exacts [isH2_nil, isH2_fenceYaml, isH2_idLine u, isH2_urlLine u,
        isH2_fenceClose]
    exact ih (by rwa [wbWF_h2_noafter _ _ _ _ hH2 hlook hdrop] at hwf)
      (segTitle l) _ [l]
      (fun hm => by rw [matched_segTitle updates l u hlook] at hm; cases hm)
  | case4 l rest hH2 u hlook fence inner hdrop hfence ih =>
    intro hwf t acc acc2 hacc
    rw [wbWF_h2_fence _ _ _ _ hH2 hlook fence inner hdrop hfence,
      Bool.and_eq_true] at hwf
    obtain ⟨hallb, hwfrem⟩ := hwf
    have hcons : ∀ x ∈ inner.takeWhile notFenceClose, isH2 x = false := by
      intro x hx
      have := List.all_eq_true.mp hallb x hx
      simpa using this
    have hblanks : ∀ x ∈ rest.takeWhile isBlank, isH2 x = false :=
      fun x hx => isBlank_not_h2 x (List.mem_takeWhile_imp hx)
    have hfH2 : isH2 fence = false := fence_not_h2 fence hfence
    rw [wbMain_h2_fence _ _ _ _ hH2 hlook fence inner hdrop hfence,
      segsFrom_cons_h2 _ _ _ _ hH2, segsFrom_cons_h2 _ _ _ _ hH2]
    refine List.Forall₂.cons ⟨rfl, fun hm => by rw [hacc hm]⟩ ?_
    have hrest : rest = rest.takeWhile isBlank ++ fence :: inner := by
      conv_lhs => rw [← List.takeWhile_append_dropWhile (p := isBlank) (l := rest)]
      rw [hdrop]
    have hblockout := wbBlockOut_not_h2 u inner hcons
    have hno2 : ∀ x ∈ inner.takeWhile notFenceClose ++
        (inner.dropWhile notFenceClose).take 1, isH2 x = false := by
      intro x hx
      rcases List.mem_append.mp hx with hx | hx
      · exact hcons x hx
      · exact cls_not_h2 inner x hx
    conv_lhs => rw [segsFrom_append_not_h2 _ _ _ _ hblanks,
      segsFrom_cons_not_h2 _ _ _ _ hfH2,
      segsFrom_append_not_h2 _ _ _ _ hblockout]
    conv_rhs => rw [hrest, segsFrom_append_not_h2 _ _ _ _ hblanks,
      segsFrom_cons_not_h2 _ _ _ _ hfH2, ← inner_decomp inner,
      ← List.append_assoc, segsFrom_append_not_h2 _ _ _ _ hno2]
    exact ih hwfrem (segTitle l) _ _
      (fun hm => by rw [matched_segTitle updates l u hlook] at hm; cases hm)
  | case5 l rest hH2 u hlook fence inner hdrop hfence ih =>
    intro hwf t acc acc2 hacc
    rw [wbMain_h2_notfence _ _ _ _ hH2 hlook fence inner hdrop hfence,
      segsFrom_cons_h2 _ _ _ _ hH2, segsFrom_cons_h2 _ _ _ _ hH2]
    refine List.Forall₂.cons ⟨rfl, fun hm => by rw [hacc hm]⟩ ?_
    have heq : ([] :: fenceYaml :: idLine u :: urlLine u :: fenceClose ::
        wbMain updates rest)
        = [[], fenceYaml, idLine u, urlLine u, fenceClose] ++
          wbMain updates rest := rfl
    rw [heq, segsFrom_append_not_h2 _ _ _ _ ?hno3]
    case hno3 =>
      intro x hx
      simp only [List.mem_cons, List.not_mem_nil, or_false] at hx
      rcases hx with rfl | rfl | rfl | rfl | rfl
      exacts [isH2_nil, isH2_fenceYaml, isH2_idLine u, isH2_urlLine u,
        isH2_fenceClose]
    exact ih
      (by rwa [wbWF_h2_notfence _ _ _ _ hH2 hlook fence inner hdrop hfence] at hwf)
      (segTitle l) _ [l]
      (fun hm => by rw [matched_segTitle updates l u hlook] at hm; cases hm)
  | case6 l rest hH2 ih =>
    intro hwf t acc acc2 hacc
    have hl2 : isH2 l = false := by
      revert hH2
      cases isH2 l <;> simp
    rw [wbMain_not_h2 _ _ _ hH2, segsFrom_cons_not_h2 _ _ _ _ hl2,
      segsFrom_cons_not_h2 _ _ _ _ hl2]
    exact ih (by rwa [wbWF_not_h2 _ _ _ hH2] at hwf) t (l :: acc) (l :: acc2)
      (fun hm => by rw [hacc hm])


/-! ### From lines back to document text -/

theorem updLookup_mem {updates : List WriteBackUpdate} {t : Str}
    {u : WriteBackUpdate} (h : updLookup updates t = some u) : u ∈ updates := by
  have := List.mem_of_find?_eq_some h
  simpa using this

theorem noNl_idLine (u : WriteBackUpdate) (h1 : '\n' ∉ u.linearId) :
    '\n' ∉ idLine u := by
  intro hmem
  simp only [idLine, List.mem_append, List.mem_cons] at hmem
  rcases hmem with h | h | h
  · exact absurd h (by decide)
  · exact absurd h (by decide)
  · exact h1 h

theorem noNl_urlLine (u : WriteBackUpdate) (h1 : '\n' ∉ u.linearUrl) :
    '\n' ∉ urlLine u := by
  intro hmem
  simp only [urlLine, List.mem_append, List.mem_cons] at hmem
  rcases hmem with h | h | h
  · exact absurd h (by decide)
  · exact absurd h (by decide)
  · exact h1 h

theorem noNl_rewrite (u : WriteBackUpdate) (l : Str)
    (h1 : '\n' ∉ u.linearId) (h2 : '\n' ∉ u.linearUrl) (hl : '\n' ∉ l) :
    '\n' ∉ rewriteYamlLine u l := by
  unfold rewriteYamlLine
  by_cases ha : idKey.isPrefixOf l
  · rw [if_pos ha]
    exact noNl_idLine u h1
  · rw [if_neg ha]
    by_cases hb : urlKey.isPrefixOf l
    · rw [if_pos hb]
      exact noNl_urlLine u h2
    · rw [if_neg hb]
      exact hl

theorem wbBlockOut_no_newline (u : WriteBackUpdate) (inner : List Str)
    (h1 : '\n' ∉ u.linearId) (h2 : '\n' ∉ u.linearUrl)
    (hin : ∀ y ∈ inner, '\n' ∉ y) : ∀ x ∈ wbBlockOut u inner, '\n' ∉ x := by
  intro x hx
  unfold wbBlockOut at hx
  simp only [List.mem_append] at hx
  rcases hx with ((hx | hx) | hx) | hx
  · obtain ⟨y, hy, rfl⟩ := List.mem_map.mp hx
    exact noNl_rewrite u y h1 h2 (hin y ((List.takeWhile_sublist _).subset hy))
  · have hxe : x = idLine u := by
      rcases hb : (inner.takeWhile notFenceClose).any (fun l => idKey.isPrefixOf l) with _ | _ <;>
        rw [hb] at hx <;> simpa using hx
    rw [hxe]
    exact noNl_idLine u h1
  · have hxe : x = urlLine u := by
      rcases hb : (inner.takeWhile notFenceClose).any (fun l => urlKey.isPrefixOf l) with _ | _ <;>
        rw [hb] at hx <;> simpa using hx
    rw [hxe]
    exact noNl_urlLine u h2
  · exact hin x ((List.dropWhile_sublist _).subset ((List.take_sublist _ _).subset hx))

theorem wbMain_no_newline (updates : List WriteBackUpdate)
    (hupd : ∀ u ∈ updates, '\n' ∉ u.linearId ∧ '\n' ∉ u.linearUrl)
    (ls : List Str) :
    (∀ l ∈ ls, '\n' ∉ l) → ∀ x ∈ wbMain updates ls, '\n' ∉ x := by
  induction ls using wbMain.induct updates with
  | case1 =>
    intro _ x hx
    rw [wbMain_nil] at hx
    simp at hx
  | case2 l rest hH2 hlook ih =>
    intro hls x hx
    rw [wbMain_h2_none _ _ _ hH2 hlook] at hx
    rcases List.mem_cons.mp hx with rfl | hx
    · exact hls _ (List.mem_cons_self _ _)
    · exact ih (fun y hy => hls y (List.mem_cons_of_mem _ hy)) x hx
  | case3 l rest hH2 u hlook hdrop ih =>
    intro hls x hx
    rw [wbMain_h2_noafter _ _ _ _ hH2 hlook hdrop] at hx
    obtain ⟨hid, hurl⟩ := hupd u (updLookup_mem hlook)
    rcases List.mem_cons.mp hx with rfl | hx
    · exact hls _ (List.mem_cons_self _ _)
    rcases List.mem_cons.mp hx with rfl | hx
    · simp
    rcases List.mem_cons.mp hx with rfl | hx
    · decide
    rcases List.mem_cons.mp hx with rfl | hx
    · exact noNl_idLine u hid
    rcases List.mem_cons.mp hx with rfl | hx
    · exact noNl_urlLine u hurl
    rcases List.mem_cons.mp hx with rfl | hx
    · decide
    exact ih (fun y hy => hls y (List.mem_cons_of_mem _ hy)) x hx
  | case4 l rest hH2 u hlook fence inner hdrop hfence ih =>
    intro hls x hx
    obtain ⟨hid, hurl⟩ := hupd u (updLookup_mem hlook)
    have hrest_mem : ∀ y ∈ rest, '\n' ∉ y :=
      fun y hy => hls y (List.mem_cons_of_mem _ hy)
    have hinner_mem : ∀ y ∈ inner, '\n' ∉ y := by
      intro y hy
      apply hrest_mem
      have hmem : y ∈ List.dropWhile isBlank rest := by
        rw [hdrop]
        exact List.mem_cons_of_mem _ hy
      exact (List.dropWhile_sublist _).subset hmem
    rw [wbMain_h2_fence _ _ _ _ hH2 hlook fence inner hdrop hfence] at hx
    rcases List.mem_cons.mp hx with rfl | hx
    · exact hls _ (List.mem_cons_self _ _)
    rcases List.mem_append.mp hx with hx | hx
    · exact hrest_mem _ ((List.takeWhile_sublist _).subset hx)
    rcases List.mem_cons.mp hx with rfl | hx
    · apply hrest_mem
      have hmem : x ∈ List.dropWhile isBlank rest := by
        rw [hdrop]
        exact List.mem_cons_self _ _
      exact (List.dropWhile_sublist _).subset hmem
    rcases List.mem_append.mp hx with hx | hx
    · exact wbBlockOut_no_newline u inner hid hurl hinner_mem x hx
    · refine ih ?_ x hx
      intro y hy
      exact hinner_mem y
        ((List.dropWhile_sublist _).subset ((List.drop_sublist _ _).subset hy))
  | case5 l rest hH2 u hlook fence inner hdrop hfence ih =>
    intro hls x hx
    rw [wbMain_h2_notfence _ _ _ _ hH2 hlook fence inner hdrop hfence] at hx
    obtain ⟨hid, hurl⟩ := hupd u (updLookup_mem hlook)
    rcases List.mem_cons.mp hx with rfl | hx
    · exact hls _ (List.mem_cons_self _ _)
    rcases List.mem_cons.mp hx with rfl | hx
    · simp
    rcases List.mem_cons.mp hx with rfl | hx
    · decide
    rcases List.mem_cons.mp hx with rfl | hx
    · exact noNl_idLine u hid
    rcases List.mem_cons.mp hx with rfl | hx
    · exact noNl_urlLine u hurl
    rcases List.mem_cons.mp hx with rfl | hx
    · decide
    exact ih (fun y hy => hls y (List.mem_cons_of_mem _ hy)) x hx
  | case6 l rest hH2 ih =>
    intro hls x hx
    rw [wbMain_not_h2 _ _ _ hH2] at hx
    rcases List.mem_cons.mp hx with rfl | hx
    · exact hls _ (List.mem_cons_self _ _)
    · exact ih (fun y hy => hls y (List.mem_cons_of_mem _ hy)) x hx

theorem wbMain_cons_ne_nil (updates : List WriteBackUpdate) (l : Str)
    (rest : List Str) : wbMain updates (l :: rest) ≠ [] := by
  by_cases hH2 : isH2 l = true
  · rcases hlook : updLookup updates (jsTrim (l.drop 3)) with _ | u
    · rw [wbMain_h2_none _ _ _ hH2 hlook]
      simp
    · rcases hdrop : rest.dropWhile isBlank with _ | ⟨fence, inner⟩
      · rw [wbMain_h2_noafter _ _ _ _ hH2 hlook hdrop]
        simp
      · by_cases hf : (jsTrim fence == fenceYaml) = true
        · rw [wbMain_h2_fence _ _ _ _ hH2 hlook fence inner hdrop hf]
          simp
        · rw [wbMain_h2_notfence _ _ _ _ hH2 hlook fence inner hdrop hf]
          simp
  · rw [wbMain_not_h2 _ _ _ hH2]
    simp


/-! ### Claim C1 -/

/-- The segments of a line list that carry a given title. -/
def segLinesOf (ls : List Str) (t : Str) : List (List Str) :=
  ((segs ls).filter (fun p => p.1 == some t)).map (fun p => p.2)

/-- C1 counterexample document: story A's YAML fence is never closed before
story B's heading, so the fence-scanning loop of `writeBackIds` swallows B. -/
def c1cexDoc : Str :=
  "## A\n```yaml\nlinear_id: old\n## B\n```yaml\nlinear_id:\n```".toList

/-- C1 counterexample update set: only story A is updated. -/
def c1cexUps : List WriteBackUpdate :=
  [{ title := "A".toList, linearId := "NEW-A".toList,
     linearUrl := "URL-A".toList }]

/-- The text `writeBackIds` actually produces on the C1 counterexample. -/
def c1cexOut : Str :=
  ("## A\n```yaml\nlinear_id: NEW-A\n## B\n```yaml\nlinear_id: NEW-A\n" ++
    "linear_url: URL-A\n```").toList

def c1cexHeadLine : Str := "## A".toList

def c1cexRest : List Str :=
  ["```yaml".toList, "linear_id: old".toList, "## B".toList, "```yaml".toList,
   "linear_id:".toList, "```".toList]

def c1cexInner : List Str :=
  ["linear_id: old".toList, "## B".toList, "```yaml".toList,
   "linear_id:".toList, "```".toList]

def c1cexU : WriteBackUpdate :=
  { title := "A".toList, linearId := "NEW-A".toList,
    linearUrl := "URL-A".toList }

theorem c1cex_eval : writeBackIds c1cexDoc c1cexUps = c1cexOut := by
  rw [writeBackIds, if_neg (by decide)]
  rw [show splitLines c1cexDoc = c1cexHeadLine :: c1cexRest from by decide]
  rw [wbMain_h2_fence c1cexUps c1cexHeadLine c1cexRest c1cexU (by decide)
    (by decide) ("```yaml".toList) c1cexInner (by decide) (by decide)]
  rw [show wbBlockRem c1cexInner = ([] : List Str) from by decide]
  rw [wbMain_nil]
  decide


/-- C1 (counterexample): as universally quantified over every document text,
the claim is false.  In `c1cexDoc` story B is not in the update set and its
metadata block holds an empty `linear_id:` line, yet `writeBackIds` rewrites
that line (and inserts a `linear_url` line) because story A's unclosed
`yaml` fence swallows B's lines. -/
theorem linearstories_C1_counterexample :
    updLookup c1cexUps ("B".toList) = none ∧
    segLinesOf (splitLines c1cexDoc) ("B".toList) =
      [["## B".toList, "```yaml".toList, "linear_id:".toList,
        "```".toList]] ∧
    segLinesOf (splitLines (writeBackIds c1cexDoc c1cexUps)) ("B".toList) =
      [["## B".toList, "```yaml".toList, "linear_id: NEW-A".toList,
        "linear_url: URL-A".toList, "```".toList]] := by
  refine ⟨by decide, by decide, ?_⟩
  rw [c1cex_eval]
  decide

/-- C1 (amended): for every document text whose matched stories close their
opened `yaml` fences before the next `## ` heading (`wbWF`), and every
non-empty update set with newline-free values, the output of `writeBackIds`
splits into the same sequence of segments — same story titles in the same
order — and every segment (the preamble, and every story whose title is not
a key of the update set) is byte-for-byte identical to the corresponding
input segment, including an empty `linear_id:` line inside such a story's
metadata block.  Only matched stories' segments may differ. -/
theorem linearstories_C1_writeback_isolation (content : Str)
    (updates : List WriteBackUpdate) (hne : updates ≠ [])
    (hupd : ∀ u ∈ updates, '\n' ∉ u.linearId ∧ '\n' ∉ u.linearUrl)
    (hwf : wbWF updates (splitLines content) = true) :
    List.Forall₂ (segAgree updates)
      (segs (splitLines (writeBackIds content updates)))
      (segs (splitLines content)) := by
  have hemp : ¬ updates.isEmpty = true := by
    cases updates
    · exact absurd rfl hne
    · simp
  rw [writeBackIds, if_neg hemp]
  have hlines : ∀ l ∈ splitLines content, '\n' ∉ l :=
    splitOnChar_not_mem '\n' content
  have hnn : ∀ l ∈ wbMain updates (splitLines content), '\n' ∉ l :=
    wbMain_no_newline updates hupd _ hlines
  obtain ⟨hd, tl, hsp⟩ := splitOnChar_exists_cons '\n' content
  have hne2 : wbMain updates (splitLines content) ≠ [] := by
    rw [splitLines, hsp]
    exact wbMain_cons_ne_nil updates hd tl
  have hjs : splitLines (joinLines (wbMain updates (splitLines content))) =
      wbMain updates (splitLines content) :=
    split_join '\n' _ hne2 hnn
  rw [hjs]
  exact wb_segs_agree updates _ hwf none [] [] (fun _ => rfl)

/-- C1 witness document: story A (matched, fence properly closed) and
story B (unmatched). -/
def c1wDoc : Str := "## A\n```yaml\nlinear_id:\n```\n## B\nBody".toList

def c1wUps : List WriteBackUpdate :=
  [{ title := "A".toList, linearId := "ENG-1".toList,
     linearUrl := "https://linear.app/x/ENG-1".toList }]

def c1wU : WriteBackUpdate :=
  { title := "A".toList, linearId := "ENG-1".toList,
    linearUrl := "https://linear.app/x/ENG-1".toList }

def c1wHeadLine : Str := "## A".toList

def c1wRest : List Str :=
  ["```yaml".toList, "linear_id:".toList, "```".toList, "## B".toList,
   "Body".toList]

def c1wInner : List Str :=
  ["linear_id:".toList, "```".toList, "## B".toList, "Body".toList]

/-- C1 witness: the amended isolation theorem applied to a concrete
two-story document, updating only story A. -/
theorem linearstories_C1_witness :
    List.Forall₂ (segAgree c1wUps)
      (segs (splitLines (writeBackIds c1wDoc c1wUps)))
      (segs (splitLines c1wDoc)) := by
  apply linearstories_C1_writeback_isolation
  · decide
  · decide
  · rw [show splitLines c1wDoc = c1wHeadLine :: c1wRest from by decide]
    rw [wbWF_h2_fence c1wUps c1wHeadLine c1wRest c1wU (by decide) (by decide)
      ("```yaml".toList) c1wInner (by decide) (by decide)]
    rw [show wbBlockRem c1wInner = ["## B".toList, "Body".toList] from by decide]
    rw [wbWF_h2_none c1wUps ("## B".toList) ["Body".toList] (by decide)
      (by decide)]
    rw [wbWF_not_h2 c1wUps ("Body".toList) [] (by decide)]
    rw [wbWF_nil]
    decide


/-! ## Remote environment and call traces

The injected `LinearClient` is modelled as an `Env` of query functions.  Each
query returns `Except Str` (an `error` models the client throwing) carrying
the list of node identifiers the remote filter matched, in result order.
Every remote interaction and observable side effect is recorded as a `Call`.
Pagination of the issue query is abstracted into a single fetch returning all
pages' nodes. -/

structure CreateIssueInput where
  title : Str
  teamId : Str
  description : Option Str := none
  projectId : Option Str := none
  labelIds : Option (List Str) := none
  assigneeId : Option Str := none
  priority : Option Int := none
  estimate : Option Int := none
  stateId : Option Str := none
deriving DecidableEq, Repr

structure UpdateIssueInput where
  title : Str
  description : Option Str := none
  projectId : Option Str := none
  labelIds : Option (List Str) := none
  assigneeId : Option Str := none
  priority : Option Int := none
  estimate : Option Int := none
  stateId : Option Str := none
deriving DecidableEq, Repr

/-- The result shape `createIssue` resolves (`issue.id/identifier/url`). -/
structure CreatedIssue where
  id : Str
  identifier : Str
  url : Str
deriving DecidableEq, Repr

/-- The filter object built by `buildIssueFilter` (src/linear/filters.ts):
each optional field models the corresponding key of the returned record. -/
structure IssueFilter where
  projectIdEq : Option Str := none
  numberIn : Option (List Int) := none
  teamKeyEq : Option Str := none
  stateNameEqIgnoreCase : Option Str := none
  assigneeEmailEq : Option Str := none
  creatorEmailEq : Option Str := none
deriving DecidableEq, Repr

/-- A fetched issue after `resolveIssueFields` flattened its async fields. -/
structure LinearIssueData where
  id : Str
  identifier : Str
  url : Str
  title : Str
  description : Option Str := none
  priority : Option Int := none
  estimate : Option Int := none
  stateName : Option Str := none
  assigneeEmail : Option Str := none
  labelNames : List Str := []
  projectName : Option Str := none
  teamName : Option Str := none
deriving DecidableEq, Repr

inductive Call where
  | teamsQuery (name : Str)
  | projectsQuery (teamId name : Str)
  | labelsQuery (name : Str)
  | usersQuery (byEmail : Bool) (emailOrName : Str)
  | statesQuery (teamId name : Str)
  | createIssueCall (input : CreateIssueInput)
  | updateIssueCall (issueId : Str) (input : UpdateIssueInput)
  | fetchIssuesCall (filter : IssueFilter)
  | warnCall (name : Str)
  | writeFileCall (path : Str) (content : Str)
deriving DecidableEq, Repr

structure Env where
  teams : Str → Except Str (List Str)
  projects : Str → Str → Except Str (List Str)
  issueLabels : Str → Except Str (List Str)
  users : Bool → Str → Except Str (List Str)
  workflowStates : Str → Str → Except Str (List Str)
  createIssueRaw : CreateIssueInput → Except Str (Bool × CreatedIssue)
  updateIssueRaw : Str → UpdateIssueInput → Except Str (Bool × Str)
  issuesRaw : IssueFilter → Except Str (List LinearIssueData)
  readFile : Str → Str

/-! ## Name resolver (src/linear/resolvers.ts) -/

def isHexDigit (c : Char) : Bool :=
  c.isDigit || ('a' ≤ c && c ≤ 'f') || ('A' ≤ c && c ≤ 'F')

/-- The `UUID_RE` pass-through test. -/
def isUuid (s : Str) : Bool :=
  match splitOnChar '-' s with
  | [a, b, c2, d, e] =>
    a.length == 8 && b.length == 4 && c2.length == 4 && d.length == 4 &&
      e.length == 12 && (a ++ b ++ c2 ++ d ++ e).all isHexDigit
  | _ => false

/-- `value.includes("@")`. -/
def isEmail (s : Str) : Bool := s.contains '@'

/-- The caches of one `Resolver` instance.  A JS `Map` is modelled as an
association list where insertion prepends and lookup takes the first hit,
so a later `set` of the same key wins. -/
structure RState where
  teamCache : List (Str × Str) := []
  projectCache : List (Str × Str) := []
  labelCache : List (Str × Str) := []
  userCache : List (Str × Option Str) := []
  stateCache : List (Str × Option Str) := []
deriving DecidableEq, Repr

def mget {α : Type} (m : List (Str × α)) (k : Str) : Option α :=
  (m.find? (fun p => p.1 == k)).map (fun p => p.2)

def mset {α : Type} (m : List (Str × α)) (k : Str) (v : α) : List (Str × α) :=
  (k, v) :: m

def teamNotFoundMsg (n : Str) : Str :=
  "Team not found: \"".toList ++ n ++ "\"".toList

def projectNotFoundMsg (n : Str) : Str :=
  "Project not found: \"".toList ++ n ++ "\"".toList

/-- The query branch of `resolveTeamId` (cache miss). -/
def teamQuery (env : Env) (st : RState) (nameOrId : Str) :
    Except Str Str × RState × List Call :=
  match env.teams nameOrId with
  | Except.error e => (Except.error e, st, [Call.teamsQuery nameOrId])
  | Except.ok [] =>
    (Except.error (teamNotFoundMsg nameOrId), st, [Call.teamsQuery nameOrId])
  | Except.ok (tid :: _) =>
    (Except.ok tid, { st with teamCache := mset st.teamCache nameOrId tid },
      [Call.teamsQuery nameOrId])

/-- `Resolver.resolveTeamId`.  The cache test `if (cached)` is JS truthiness:
an empty-string cached value counts as a miss. -/
def resolveTeamId (env : Env) (st : RState) (nameOrId : Str) :
    Except Str Str × RState × List Call :=
  if isUuid nameOrId then (Except.ok nameOrId, st, [])
  else
    match mget st.teamCache nameOrId with
    | some c => if c.isEmpty then teamQuery env st nameOrId
                else (Except.ok c, st, [])
    | none => teamQuery env st nameOrId

/-- The `${teamId}:${nameOrId}` cache key. -/
def scopedKey (teamId n : Str) : Str := teamId ++ ':' :: n

def projectQuery (env : Env) (st : RState) (nameOrId teamId : Str) :
    Except Str Str × RState × List Call :=
  match env.projects nameOrId teamId with
  | Except.error e => (Except.error e, st, [Call.projectsQuery teamId nameOrId])
  | Except.ok [] =>
    (Except.error (projectNotFoundMsg nameOrId), st,
      [Call.projectsQuery teamId nameOrId])
  | Except.ok (pid :: _) =>
    (Except.ok pid,
      { st with projectCache := mset st.projectCache (scopedKey teamId nameOrId) pid },
      [Call.projectsQuery teamId nameOrId])

/-- `Resolver.resolveProjectId`. -/
def resolveProjectId (env : Env) (st : RState) (nameOrId teamId : Str) :
    Except Str Str × RState × List Call :=
  if isUuid nameOrId then (Except.ok nameOrId, st, [])
  else
    match mget st.projectCache (scopedKey teamId nameOrId) with
    | some c => if c.isEmpty then projectQuery env st nameOrId teamId
                else (Except.ok c, st, [])
    | none => projectQuery env st nameOrId teamId

/-- The query path of one iteration of the `resolveLabelIds` loop (cache
miss, or a cached falsy value): one `issueLabels` query; a found label is
cached and contributed, an absent one warns and contributes nothing, and a
thrown client error aborts the loop. -/
def labelQueryStep (env : Env) (st : RState) (n : Str) :
    Except Str (Option Str) × RState × List Call :=
  match env.issueLabels n with
  | Except.error e => (Except.error e, st, [Call.labelsQuery n])
  | Except.ok [] =>
    (Except.ok none, st, [Call.labelsQuery n, Call.warnCall n])
  | Except.ok (lid :: _) =>
    (Except.ok (some lid),
      { st with labelCache := mset st.labelCache n lid },
      [Call.labelsQuery n])

/-- One iteration of the `resolveLabelIds` loop: a truthy cache hit
contributes the cached id with no remote call, anything else goes through
`labelQueryStep`. -/
def labelStep (env : Env) (st : RState) (n : Str) :
    Except Str (Option Str) × RState × List Call :=
  match mget st.labelCache n with
  | some c => if c.isEmpty then labelQueryStep env st n
              else (Except.ok (some c), st, [])
  | none => labelQueryStep env st n

/-- The `for (const name of names)` loop of `resolveLabelIds`. -/
def labelsLoop (env : Env) (st : RState) :
    List Str → Except Str (List Str) × RState × List Call
  | [] => (Except.ok [], st, [])
  | n :: rest =>
    match labelStep env st n with
    | (Except.error e, st2, tr) => (Except.error e, st2, tr)
    | (Except.ok contrib, st2, tr) =>
      match labelsLoop env st2 rest with
      | (Except.ok ids, st3, tr2) =>
        (Except.ok (contrib.toList ++ ids), st3, tr ++ tr2)
      | (Except.error e, st3, tr2) => (Except.error e, st3, tr ++ tr2)

/-- `Resolver.resolveLabelIds` (the `names.length === 0` early return, then
the loop). -/
def resolveLabelIds (env : Env) (st : RState) (names : List Str) :
    Except Str (List Str) × RState × List Call :=
  if names.isEmpty then (Except.ok [], st, [])
  else labelsLoop env st names

/-- `Resolver.resolveAssigneeId`.  The stored value `string | undefined` is
modelled as `Option Str`; `get` returning `undefined` for both a missing key
and a stored `undefined` is the three-way match below (the JS pair of tests
`cached !== undefined` / `has`). -/
def resolveAssigneeId (env : Env) (st : RState) (emailOrName : Str) :
    Except Str (Option Str) × RState × List Call :=
  match mget st.userCache emailOrName with
  | some (some uid) => (Except.ok (some uid), st, [])
  | some none => (Except.ok none, st, [])
  | none =>
    match env.users (isEmail emailOrName) emailOrName with
    | Except.error e =>
      (Except.error e, st, [Call.usersQuery (isEmail emailOrName) emailOrName])
    | Except.ok [] =>
      (Except.ok none,
        { st with userCache := mset st.userCache emailOrName none },
        [Call.usersQuery (isEmail emailOrName) emailOrName])
    | Except.ok (uid :: _) =>
      (Except.ok (some uid),
        { st with userCache := mset st.userCache emailOrName (some uid) },
        [Call.usersQuery (isEmail emailOrName) emailOrName])

/-- The `${teamId}:${name.toLowerCase()}` cache key. -/
def stateKey (teamId n : Str) : Str :=
  teamId ++ ':' :: (n.map Char.toLower)

/-- `Resolver.resolveWorkflowStateId` (`has` then `get`, so a cached
not-found is returned without a remote call). -/
def resolveWorkflowStateId (env : Env) (st : RState) (n teamId : Str) :
    Except Str (Option Str) × RState × List Call :=
  match mget st.stateCache (stateKey teamId n) with
  | some v => (Except.ok v, st, [])
  | none =>
    match env.workflowStates teamId n with
    | Except.error e => (Except.error e, st, [Call.statesQuery teamId n])
    | Except.ok [] =>
      (Except.ok none,
        { st with stateCache := mset st.stateCache (stateKey teamId n) none },
        [Call.statesQuery teamId n])
    | Except.ok (sid :: _) =>
      (Except.ok (some sid),
        { st with stateCache := mset st.stateCache (stateKey teamId n) (some sid) },
        [Call.statesQuery teamId n])


/-! ### Claim C8 -/

instance {e a : Type} [DecidableEq e] [DecidableEq a] :
    DecidableEq (Except e a) := fun x y =>
  match x, y with
  | Except.ok v, Except.ok w =>
    if h : v = w then isTrue (by rw [h])
    else isFalse (by intro hc; injection hc; exact h (by assumption))
  | Except.ok _, Except.error _ => isFalse (by intro hc; cases hc)
  | Except.error _, Except.ok _ => isFalse (by intro hc; cases hc)
  | Except.error v, Except.error w =>
    if h : v = w then isTrue (by rw [h])
    else isFalse (by intro hc; injection hc; exact h (by assumption))

def isTeamsCall : Call → Bool
  | Call.teamsQuery _ => true
  | _ => false

def isProjectsCall : Call → Bool
  | Call.projectsQuery _ _ => true
  | _ => false

def isLabelsCall : Call → Bool
  | Call.labelsQuery _ => true
  | _ => false

def isWarnCall : Call → Bool
  | Call.warnCall _ => true
  | _ => false

/-- The fresh resolver state (a newly constructed `Resolver`). -/
def rs0 : RState := {}

/-- C8 counterexample environment: the remote teams query finds a team whose
id is the empty string. -/
def c8env : Env where
  teams := fun _ => Except.ok [[]]
  projects := fun _ _ => Except.ok []
  issueLabels := fun _ => Except.ok []
  users := fun _ _ => Except.ok []
  workflowStates := fun _ _ => Except.ok []
  createIssueRaw := fun _ => Except.error "unused".toList
  updateIssueRaw := fun _ _ => Except.error "unused".toList
  issuesRaw := fun _ => Except.ok []
  readFile := fun _ => []

def c8name : Str := "Engineering".toList

/-- C8 (counterexample): the first resolution of the team name succeeds
(returning the remote team's id — here the empty string), yet because
`if (cached)` treats the cached empty string as a miss, the second call
issues a second remote teams query: two queries across the two calls, not
exactly one. -/
theorem linearstories_C8_counterexample :
    (resolveTeamId c8env rs0 c8name).1 = Except.ok [] ∧
    ((resolveTeamId c8env rs0 c8name).2.2 ++
      (resolveTeamId c8env (resolveTeamId c8env rs0 c8name).2.1
        c8name).2.2).filter isTeamsCall =
      [Call.teamsQuery c8name, Call.teamsQuery c8name] := by
  decide

/-- C8 (amended): for every team name that is not UUID-shaped, if the first
resolution on a fresh `Resolver` succeeds with a non-empty identifier, then
that first call issued exactly one remote teams query, and the second call
with the same name returns the same identifier from the cache with no remote
call at all — so exactly one teams query is issued across the two calls. -/
theorem linearstories_C8_team_caching (env : Env) (n tid : Str)
    (hn : isUuid n = false) (htid : tid ≠ [])
    (h1 : (resolveTeamId env rs0 n).1 = Except.ok tid) :
    (resolveTeamId env rs0 n).2.2 = [Call.teamsQuery n] ∧
    resolveTeamId env (resolveTeamId env rs0 n).2.1 n =
      (Except.ok tid, (resolveTeamId env rs0 n).2.1, []) := by
  have hst : resolveTeamId env rs0 n = teamQuery env rs0 n := by
    rw [resolveTeamId, if_neg (by simp [hn])]
    rfl
  rcases he : env.teams n with e | nodes
  · rw [hst, teamQuery, he] at h1
    simp at h1
  · cases nodes with
    | nil =>
      rw [hst, teamQuery, he] at h1
      simp at h1
    | cons tid0 restNodes =>
      have heq : tid0 = tid := by
        rw [hst, teamQuery, he] at h1
        simpa using h1
      subst heq
      have hres : resolveTeamId env rs0 n =
          (Except.ok tid0,
            { rs0 with teamCache := mset rs0.teamCache n tid0 },
            [Call.teamsQuery n]) := by
        rw [hst, teamQuery, he]
      refine ⟨by rw [hres], ?_⟩
      rw [hres]
      have hmg : mget (mset rs0.teamCache n tid0) n = some tid0 := by
        simp [mget, mset]
      have hne : tid0.isEmpty = false := by
        cases tid0 with
        | nil => exact absurd rfl htid
        | cons a b => rfl
      rw [resolveTeamId, if_neg (by simp [hn])]
      dsimp only []
      rw [hmg]
      dsimp only []
      rw [hne]
      rfl

/-- C8 witness environment: the teams query finds id `"u1"`. -/
def c8wenv : Env where
  teams := fun _ => Except.ok ["u1".toList]
  projects := fun _ _ => Except.ok []
  issueLabels := fun _ => Except.ok []
  users := fun _ _ => Except.ok []
  workflowStates := fun _ _ => Except.ok []
  createIssueRaw := fun _ => Except.error "unused".toList
  updateIssueRaw := fun _ _ => Except.error "unused".toList
  issuesRaw := fun _ => Except.ok []
  readFile := fun _ => []

/-- C8 witness: the amended caching theorem applied to a concrete
environment resolving `"Engineering"` to `"u1"`. -/
theorem linearstories_C8_witness :
    (resolveTeamId c8wenv rs0 c8name).2.2 = [Call.teamsQuery c8name] ∧
    resolveTeamId c8wenv (resolveTeamId c8wenv rs0 c8name).2.1 c8name =
      (Except.ok ("u1".toList), (resolveTeamId c8wenv rs0 c8name).2.1, []) :=
  linearstories_C8_team_caching c8wenv c8name ("u1".toList) (by decide)
    (by decide) (by decide)


/-! ### Claim C9 -/

theorem mget_mset {α : Type} (m : List (Str × α)) (n k : Str) (v : α) :
    mget (mset m n v) k = if n = k then some v else mget m k := by
  by_cases h : n = k
  · rw [if_pos h]
    simp [mget, mset, List.find?_cons_of_pos, h]
  · rw [if_neg h]
    have hb : ((n, v).1 == k) = false := by
      simp [h]
    simp [mget, mset, List.find?_cons_of_neg, hb, h]

/-- The id the remote label query would yield for a name (first node). -/
def labelFirst (env : Env) (n : Str) : Option Str :=
  match env.issueLabels n with
  | Except.ok (x :: _) => some x
  | _ => none

/-- Every cached label id agrees with what the remote query returns. -/
def labelCacheOk (env : Env) (st : RState) : Prop :=
  ∀ n v, mget st.labelCache n = some v → labelFirst env n = some v


theorem labelStep_spec (env : Env) (st : RState) (n : Str)
    (hst : labelCacheOk env st) (xs : List Str)
    (hxs : env.issueLabels n = Except.ok xs) :
    (labelStep env st n).1 = Except.ok (labelFirst env n) ∧
    labelCacheOk env (labelStep env st n).2.1 ∧
    (labelStep env st n).2.2.filter isWarnCall =
      (if (labelFirst env n).isNone then [Call.warnCall n] else []) := by
  have hquery :
      (labelQueryStep env st n).1 = Except.ok (labelFirst env n) ∧
      labelCacheOk env (labelQueryStep env st n).2.1 ∧
      (labelQueryStep env st n).2.2.filter isWarnCall =
        (if (labelFirst env n).isNone then [Call.warnCall n] else []) := by
    rw [labelQueryStep, hxs]
    cases xs with
    | nil =>
      have hlf : labelFirst env n = none := by
        rw [labelFirst, hxs]
      rw [hlf]
      exact ⟨rfl, hst, by simp [isWarnCall]⟩
    | cons lid restIds =>
      have hlf : labelFirst env n = some lid := by
        rw [labelFirst, hxs]
      rw [hlf]
      refine ⟨rfl, ?_, by simp [isWarnCall]⟩
      intro k v hkv
      dsimp only [] at hkv
      rw [mget_mset] at hkv
      by_cases hk : n = k
      · rw [if_pos hk] at hkv
        injection hkv with hv
        rw [← hk, ← hv]
        exact hlf
      · rw [if_neg hk] at hkv
        exact hst k v hkv
  rcases hc : mget st.labelCache n with _ | c
  · rw [labelStep, hc]
    exact hquery
  · by_cases hce : c.isEmpty = true
    · rw [labelStep, hc]
      dsimp only []
      rw [hce]
      exact hquery
    · have hcf : c.isEmpty = false := by
        revert hce
        cases c.isEmpty <;> simp
      have hlf : labelFirst env n = some c := hst n c hc
      rw [labelStep, hc]
      dsimp only []
      rw [hcf]
      rw [hlf]
      exact ⟨rfl, hst, by simp⟩

theorem labelsLoop_spec (env : Env)
    (henv : ∀ n, ∃ xs, env.issueLabels n = Except.ok xs) :
    ∀ (names : List Str) (st : RState), labelCacheOk env st →
      (labelsLoop env st names).1 =
        Except.ok (names.filterMap (labelFirst env)) ∧
      (labelsLoop env st names).2.2.filter isWarnCall =
        (names.filter (fun m => (labelFirst env m).isNone)).map
          Call.warnCall := by
  intro names
  induction names with
  | nil =>
    intro st hst
    constructor <;> simp [labelsLoop]
  | cons n rest ih =>
    intro st hst
    obtain ⟨xs, hxs⟩ := henv n
    obtain ⟨hs1, hs2, hs3⟩ := labelStep_spec env st n hst xs hxs
    rcases hstep : labelStep env st n with ⟨r1, st2, tr1⟩
    rw [hstep] at hs1 hs2 hs3
    dsimp only [] at hs1 hs2 hs3
    subst hs1
    rcases hrec : labelsLoop env st2 rest with ⟨r2, st3, tr2⟩
    obtain ⟨hih1, hih2⟩ := ih st2 hs2
    rw [hrec] at hih1 hih2
    dsimp only [] at hih1 hih2
    subst hih1
    rw [labelsLoop, hstep]
    dsimp only []
    rw [hrec]
    dsimp only []
    constructor
    · cases hlf : labelFirst env n with
      | none =>
        rw [List.filterMap_cons_none hlf]
        simp
      | some lid =>
        rw [List.filterMap_cons_some hlf]
        simp
    · rw [List.filter_append, hs3, hih2, List.filter_cons]
      cases hlf : labelFirst env n with
      | none => simp [hlf]
      | some lid => simp [hlf]


/-- C9: for every input list of label names (on a fresh `Resolver`, with a
client whose label queries do not throw), `resolveLabelIds` returns — as a
non-error — exactly the identifiers of the names that resolved, in input
order; each name that fails to resolve contributes only a warning
side-effect; and the empty input produces an empty sequence with no remote
calls at all. -/
theorem linearstories_C9_label_best_effort (env : Env) (names : List Str)
    (henv : ∀ n, ∃ xs, env.issueLabels n = Except.ok xs) :
    (resolveLabelIds env rs0 names).1 =
      Except.ok (names.filterMap (labelFirst env)) ∧
    (resolveLabelIds env rs0 names).2.2.filter isWarnCall =
      (names.filter (fun m => (labelFirst env m).isNone)).map Call.warnCall ∧
    (names = [] → (resolveLabelIds env rs0 names).2.2 = []) := by
  have hok : labelCacheOk env rs0 := by
    intro n v h
    simp [mget, rs0] at h
  cases names with
  | nil => exact ⟨rfl, rfl, fun _ => rfl⟩
  | cons n rest =>
    have hspec := labelsLoop_spec env henv (n :: rest) rs0 hok
    have hred : resolveLabelIds env rs0 (n :: rest) =
        labelsLoop env rs0 (n :: rest) := by
      rw [resolveLabelIds, if_neg (by simp)]
    rw [hred]
    exact ⟨hspec.1, hspec.2, fun h => absurd h (by simp)⟩

/-- C9 witness environment: only the label `"Known"` exists remotely, with
id `"L1"`. -/
def c9wenv : Env where
  teams := fun _ => Except.ok []
  projects := fun _ _ => Except.ok []
  issueLabels := fun n => if n = "Known".toList
    then Except.ok ["L1".toList] else Except.ok []
  users := fun _ _ => Except.ok []
  workflowStates := fun _ _ => Except.ok []
  createIssueRaw := fun _ => Except.error "unused".toList
  updateIssueRaw := fun _ _ => Except.error "unused".toList
  issuesRaw := fun _ => Except.ok []
  readFile := fun _ => []

def c9wnames : List Str := ["Known".toList, "Unknown".toList]

/-- C9 witness: resolving `["Known", "Unknown"]` where only `"Known"` exists
returns `["L1"]` (length 1, input order) with one warning for `"Unknown"`,
and the empty input issues no calls. -/
theorem linearstories_C9_witness :
    (resolveLabelIds c9wenv rs0 c9wnames).1 = Except.ok ["L1".toList] ∧
    (resolveLabelIds c9wenv rs0 c9wnames).2.2.filter isWarnCall =
      [Call.warnCall ("Unknown".toList)] ∧
    (resolveLabelIds c9wenv rs0 []).2.2 = [] := by
  have henv : ∀ n, ∃ xs, c9wenv.issueLabels n = Except.ok xs := by
    intro n
    show ∃ xs, (if n = "Known".toList
      then Except.ok ["L1".toList] else Except.ok []) = Except.ok xs
    by_cases h : n = "Known".toList
    · rw [if_pos h]
      exact ⟨_, rfl⟩
    · rw [if_neg h]
      exact ⟨_, rfl⟩
  obtain ⟨h1, h2, -⟩ :=
    linearstories_C9_label_best_effort c9wenv c9wnames henv
  obtain ⟨-, -, h3⟩ :=
    linearstories_C9_label_best_effort c9wenv [] henv
  refine ⟨h1.trans (by decide), h2.trans (by decide), h3 rfl⟩


/-! ### Claim C10 -/

theorem teamQuery_trace (env : Env) (st : RState) (n : Str) :
    (teamQuery env st n).2.2 = [Call.teamsQuery n] := by
  rw [teamQuery]
  rcases env.teams n with e | nodes
  · rfl
  · cases nodes <;> rfl

theorem teamQuery_error_state (env : Env) (st : RState) (n e : Str)
    (st2 : RState) (tr : List Call)
    (h : teamQuery env st n = (Except.error e, st2, tr)) : st2 = st := by
  rw [teamQuery] at h
  rcases hts : env.teams n with e2 | nodes
  · rw [hts] at h
    simp only [Prod.mk.injEq] at h
    exact h.2.1.symm
  · rw [hts] at h
    cases nodes with
    | nil =>
      simp only [Prod.mk.injEq] at h
      exact h.2.1.symm
    | cons a b => simp at h

theorem projectQuery_trace (env : Env) (st : RState) (n teamId : Str) :
    (projectQuery env st n teamId).2.2 = [Call.projectsQuery teamId n] := by
  rw [projectQuery]
  rcases env.projects n teamId with e | nodes
  · rfl
  · cases nodes <;> rfl

theorem projectQuery_error_state (env : Env) (st : RState) (n teamId e : Str)
    (st2 : RState) (tr : List Call)
    (h : projectQuery env st n teamId = (Except.error e, st2, tr)) :
    st2 = st := by
  rw [projectQuery] at h
  rcases hts : env.projects n teamId with e2 | nodes
  · rw [hts] at h
    simp only [Prod.mk.injEq] at h
    exact h.2.1.symm
  · rw [hts] at h
    cases nodes with
    | nil =>
      simp only [Prod.mk.injEq] at h
      exact h.2.1.symm
    | cons a b => simp at h

theorem labelStep_ok_none (env : Env) (st : RState) (n : Str) (stA : RState)
    (tr1 : List Call)
    (h : labelStep env st n = (Except.ok none, stA, tr1)) :
    stA = st ∧ tr1 = [Call.labelsQuery n, Call.warnCall n] ∧
      env.issueLabels n = Except.ok [] := by
  rw [labelStep] at h
  have hquery : labelQueryStep env st n = (Except.ok none, stA, tr1) →
      stA = st ∧ tr1 = [Call.labelsQuery n, Call.warnCall n] ∧
        env.issueLabels n = Except.ok [] := by
    intro hq
    rw [labelQueryStep] at hq
    rcases hql : env.issueLabels n with e2 | xs
    · rw [hql] at hq
      simp at hq
    · rw [hql] at hq
      cases xs with
      | nil =>
        simp only [Prod.mk.injEq] at hq
        exact ⟨hq.2.1.symm, hq.2.2.symm, rfl⟩
      | cons lid ls => simp at hq
  rcases hmg : mget st.labelCache n with _ | c
  · rw [hmg] at h
    exact hquery h
  · rw [hmg] at h
    dsimp only [] at h
    by_cases hce : c.isEmpty = true
    · rw [if_pos hce] at h
      exact hquery h
    · rw [if_neg hce] at h
      simp at h

/-- C10: not-found results are cached asymmetrically within one `Resolver`.
After `resolveAssigneeId` or `resolveWorkflowStateId` returns absent, the
second identical call answers absent from the cache with no remote lookup;
after `resolveTeamId`, `resolveProjectId` or `resolveLabelIds` fails to find
a name, the second identical call issues a fresh remote lookup. -/
theorem linearstories_C10_negative_caching :
    (∀ (env : Env) (st : RState) (n : Str) (st2 : RState) (tr : List Call),
      resolveAssigneeId env st n = (Except.ok none, st2, tr) →
      resolveAssigneeId env st2 n = (Except.ok none, st2, [])) ∧
    (∀ (env : Env) (st : RState) (n teamId : Str) (st2 : RState)
      (tr : List Call),
      resolveWorkflowStateId env st n teamId = (Except.ok none, st2, tr) →
      resolveWorkflowStateId env st2 n teamId = (Except.ok none, st2, [])) ∧
    (∀ (env : Env) (st : RState) (n e : Str) (st2 : RState) (tr : List Call),
      resolveTeamId env st n = (Except.error e, st2, tr) →
      (resolveTeamId env st2 n).2.2 = [Call.teamsQuery n]) ∧
    (∀ (env : Env) (st : RState) (n teamId e : Str) (st2 : RState)
      (tr : List Call),
      resolveProjectId env st n teamId = (Except.error e, st2, tr) →
      (resolveProjectId env st2 n teamId).2.2 =
        [Call.projectsQuery teamId n]) ∧
    (∀ (env : Env) (st : RState) (n : Str) (st2 : RState) (tr : List Call),
      resolveLabelIds env st [n] = (Except.ok [], st2, tr) →
      (resolveLabelIds env st2 [n]).2.2.filter isLabelsCall =
        [Call.labelsQuery n]) := by
  refine ⟨?_, ?_, ?_, ?_, ?_⟩
  · intro env st n st2 tr h
    rw [resolveAssigneeId] at h
    rcases hmg : mget st.userCache n with _ | v
    · rw [hmg] at h
      dsimp only [] at h
      rcases hus : env.users (isEmail n) n with e2 | nodes
      · rw [hus] at h
        simp at h
      · rw [hus] at h
        cases nodes with
        | nil =>
          dsimp only [] at h
          simp only [Prod.mk.injEq] at h
          obtain ⟨-, hst2, -⟩ := h
          subst hst2
          rw [resolveAssigneeId]
          have hmg2 : mget ({ st with
              userCache := mset st.userCache n none } : RState).userCache n =
              some none := by
            dsimp only []
            rw [mget_mset]
            simp
          rw [hmg2]
        | cons uid us => simp at h
    · rw [hmg] at h
      cases v with
      | none =>
        dsimp only [] at h
        simp only [Prod.mk.injEq] at h
        obtain ⟨-, hst2, -⟩ := h
        subst hst2
        rw [resolveAssigneeId, hmg]
      | some uid => simp at h
  · intro env st n teamId st2 tr h
    rw [resolveWorkflowStateId] at h
    rcases hmg : mget st.stateCache (stateKey teamId n) with _ | v
    · rw [hmg] at h
      dsimp only [] at h
      rcases hws : env.workflowStates teamId n with e2 | nodes
      · rw [hws] at h
        simp at h
      · rw [hws] at h
        cases nodes with
        | nil =>
          dsimp only [] at h
          simp only [Prod.mk.injEq] at h
          obtain ⟨-, hst2, -⟩ := h
          subst hst2
          rw [resolveWorkflowStateId]
          have hmg2 : mget ({ st with
              stateCache := mset st.stateCache (stateKey teamId n) none } :
                RState).stateCache (stateKey teamId n) = some none := by
            dsimp only []
            rw [mget_mset]
            simp
          rw [hmg2]
        | cons sid ss => simp at h
    · rw [hmg] at h
      dsimp only [] at h
      simp only [Prod.mk.injEq] at h
      obtain ⟨hv, hst2, -⟩ := h
      injection hv with hv2
      subst hv2
      subst hst2
      rw [resolveWorkflowStateId, hmg]
  · intro env st n e st2 tr h
    by_cases hu : isUuid n = true
    · rw [resolveTeamId, if_pos hu] at h
      simp at h
    · rw [resolveTeamId, if_neg hu] at h
      rcases hmg : mget st.teamCache n with _ | c
      · rw [hmg] at h
        dsimp only [] at h
        have hst2 := teamQuery_error_state env st n e st2 tr h
        rw [hst2]
        rw [resolveTeamId, if_neg hu, hmg]
        exact teamQuery_trace env st n
      · rw [hmg] at h
        dsimp only [] at h
        by_cases hce : c.isEmpty = true
        · rw [if_pos hce] at h
          have hst2 := teamQuery_error_state env st n e st2 tr h
          rw [hst2]
          rw [resolveTeamId, if_neg hu, hmg]
          dsimp only []
          rw [if_pos hce]
          exact teamQuery_trace env st n
        · rw [if_neg hce] at h
          simp at h
  · intro env st n teamId e st2 tr h
    by_cases hu : isUuid n = true
    · rw [resolveProjectId, if_pos hu] at h
      simp at h
    · rw [resolveProjectId, if_neg hu] at h
      rcases hmg : mget st.projectCache (scopedKey teamId n) with _ | c
      · rw [hmg] at h
        dsimp only [] at h
        have hst2 := projectQuery_error_state env st n teamId e st2 tr h
        rw [hst2]
        rw [resolveProjectId, if_neg hu, hmg]
        exact projectQuery_trace env st n teamId
      · rw [hmg] at h
        dsimp only [] at h
        by_cases hce : c.isEmpty = true
        · rw [if_pos hce] at h
          have hst2 := projectQuery_error_state env st n teamId e st2 tr h
          rw [hst2]
          rw [resolveProjectId, if_neg hu, hmg]
          dsimp only []
          rw [if_pos hce]
          exact projectQuery_trace env st n teamId
        · rw [if_neg hce] at h
          simp at h
  · intro env st n st2 tr h
    rw [resolveLabelIds, if_neg (by simp)] at h
    rw [labelsLoop] at h
    rcases hstep : labelStep env st n with ⟨r1, stA, tr1⟩
    rw [hstep] at h
    cases r1 with
    | error e2 =>
      dsimp only [] at h
      simp at h
    | ok contrib =>
      dsimp only [] at h
      rw [show labelsLoop env stA [] = (Except.ok [], stA, []) from rfl] at h
      dsimp only [] at h
      simp only [Prod.mk.injEq, List.append_nil] at h
      obtain ⟨hc, hsA, htr⟩ := h
      have hcn : contrib = none := by
        cases contrib with
        | none => rfl
        | some c =>
          simp [Option.toList] at hc
      subst hcn
      obtain ⟨hstA, htr1, -⟩ := labelStep_ok_none env st n stA tr1 hstep
      rw [← hsA, hstA]
      rw [hstA, htr1] at hstep
      rw [resolveLabelIds, if_neg (by simp), labelsLoop, hstep]
      dsimp only []
      rw [show labelsLoop env st [] = (Except.ok [], st, []) from rfl]
      dsimp only []
      simp [isLabelsCall]

/-- C10 witness environment: no users exist remotely. -/
def c10wenv : Env where
  teams := fun _ => Except.ok []
  projects := fun _ _ => Except.ok []
  issueLabels := fun _ => Except.ok []
  users := fun _ _ => Except.ok []
  workflowStates := fun _ _ => Except.ok []
  createIssueRaw := fun _ => Except.error "unused".toList
  updateIssueRaw := fun _ _ => Except.error "unused".toList
  issuesRaw := fun _ => Except.ok []
  readFile := fun _ => []

def c10wname : Str := "ghost".toList

def c10wst : RState := { userCache := [(c10wname, none)] }

/-- C10 witness: after a first absent `resolveAssigneeId` answer stored the
not-found marker, the second call answers absent with no remote call. -/
theorem linearstories_C10_witness :
    resolveAssigneeId c10wenv c10wst c10wname =
      (Except.ok none, c10wst, []) :=
  linearstories_C10_negative_caching.1 c10wenv rs0 c10wname c10wst
    [Call.usersQuery false c10wname] (by decide)


/-! ## Decimal numbers (JS template `${n}` for the integers the tool emits) -/

def digitChar (d : Nat) : Char := Char.ofNat (48 + d)

def natToStrAux : Nat → Nat → Str
  | 0, _ => []
  | fuel + 1, n =>
    if n < 10 then [digitChar n]
    else natToStrAux fuel (n / 10) ++ [digitChar (n % 10)]

def natToStr (n : Nat) : Str := natToStrAux (n + 1) n

def intToStr (i : Int) : Str :=
  if i < 0 then '-' :: natToStr i.natAbs else natToStr i.natAbs

def parseNat (s : Str) : Nat :=
  s.foldl (fun a c => 10 * a + (c.toNat - 48)) 0

def parseInt : Str → Int
  | [] => 0
  | c :: rest =>
    if c = '-' then -(parseNat rest : Int) else (parseNat (c :: rest) : Int)

/-- Integer syntax: an optional minus sign followed by digits. -/
def intSyntax : Str → Bool
  | [] => false
  | c :: rest =>
    if c = '-' then !rest.isEmpty && rest.all Char.isDigit
    else (c :: rest).all Char.isDigit

inductive YamlVal where
  | vNull
  | vStr (s : Str)
  | vNum (n : Int)
  | vList (xs : List Str)
deriving DecidableEq, Repr

def stripQuotes (s : Str) : Str :=
  if s.head? == some '"' && s.getLast? == some '"' && decide (2 ≤ s.length)
  then (s.drop 1).dropLast else s

def parseFlowList (inner : Str) : List Str :=
  if (jsTrim inner).isEmpty then []
  else (splitOnChar ',' inner).map (fun e => stripQuotes (jsTrim e))

def yamlScalar (v : Str) : YamlVal :=
  let t := jsTrim v
  if t.isEmpty then YamlVal.vNull
  else if t.head? == some '"' && t.getLast? == some '"' &&
      decide (2 ≤ t.length) then
    YamlVal.vStr ((t.drop 1).dropLast)
  else if t.head? == some '[' && t.getLast? == some ']' then
    YamlVal.vList (parseFlowList ((t.drop 1).dropLast))
  else if intSyntax t then YamlVal.vNum (parseInt t)
  else YamlVal.vStr t

/-- Split a string at the first occurrence of a character. -/
def splitAtChar (c : Char) : Str → Option (Str × Str)
  | [] => none
  | x :: rest =>
    if x = c then some ([], rest)
    else (splitAtChar c rest).map (fun p => (x :: p.1, p.2))

/-- One `key: value` line of a YAML mapping. -/
def parseYamlLine (l : Str) : Option (Str × YamlVal) :=
  match splitAtChar ':' l with
  | none => none
  | some (k, v) =>
    let key := jsTrim k
    if key.isEmpty then none else some (key, yamlScalar v)

def parseYamlLines (ls : List Str) : List (Str × YamlVal) :=
  ls.filterMap parseYamlLine

/-- Mapping lookup; a later duplicate key overrides an earlier one. -/
def ylookup (kvs : List (Str × YamlVal)) (k : Str) : Option YamlVal :=
  (kvs.reverse.find? (fun p => p.1 == k)).map (fun p => p.2)

/-- JS `String(value)` on a YAML value. -/
def jsStringOfYaml : YamlVal → Str
  | YamlVal.vNull => "null".toList
  | YamlVal.vStr s => s
  | YamlVal.vNum n => intToStr n
  | YamlVal.vList xs => joinChar ',' xs

/-- JS truthiness of a YAML value. -/
def truthyYaml : YamlVal → Bool
  | YamlVal.vNull => false
  | YamlVal.vStr s => !s.isEmpty
  | YamlVal.vNum n => !(n == 0)
  | YamlVal.vList _ => true

/-! ## Document parser (src/markdown/parser.ts) -/

structure UserStory where
  title : Str
  linearId : Option Str
  linearUrl : Option Str
  priority : Option Int
  labels : List Str
  estimate : Option Int
  assignee : Option Str
  status : Option Str
  body : Str
  project : Option Str
  team : Option Str
deriving DecidableEq, Repr

structure FileFrontmatter where
  project : Option Str := none
  team : Option Str := none
deriving DecidableEq, Repr

structure ParsedFile where
  frontmatter : FileFrontmatter
  stories : List UserStory
  filePath : Str
deriving DecidableEq, Repr

/-- `extractStringOrNull`: null/undefined/empty-string become `null`,
anything else is `String(value)`. -/
def extractStringOrNull (v : Option YamlVal) : Option Str :=
  match v with
  | none => none
  | some YamlVal.vNull => none
  | some (YamlVal.vStr []) => none
  | some w => some (jsStringOfYaml w)

/-- JS `Number(string)`, on the fragment this model covers; `none` models
`NaN`.  Faithful on integer syntax and on `plainStringScalar` strings other
than the exact word `Infinity` (a leading ASCII letter rules out every other
string `Number` accepts: decimals, floats, exponents, hex/octal/binary and
signed forms), which is how the theorems that use it restrict their
domains. -/
def jsNumberOfStr (s : Str) : Option Int :=
  let t := jsTrim s
  if t.isEmpty then some 0
  else if intSyntax t then some (parseInt t) else none

/-- `extractNumberOrNull`: null/undefined/empty-string become `null`, then
`Number(value)` with `NaN` mapped to `null`. -/
def extractNumberOrNull (v : Option YamlVal) : Option Int :=
  match v with
  | none => none
  | some YamlVal.vNull => none
  | some (YamlVal.vStr []) => none
  | some (YamlVal.vNum n) => some n
  | some (YamlVal.vStr s) => jsNumberOfStr s
  | some (YamlVal.vList []) => some 0
  | some (YamlVal.vList [x]) => jsNumberOfStr x
  | some (YamlVal.vList _) => none

/-- `extractLabels`: arrays map through `String`, a non-empty string splits
on commas with trimming, everything else is the empty list. -/
def extractLabels (v : Option YamlVal) : List Str :=
  match v with
  | none => []
  | some YamlVal.vNull => []
  | some (YamlVal.vList xs) => xs
  | some (YamlVal.vStr s) =>
    if (jsTrim s).isEmpty then [] else (splitOnChar ',' s).map jsTrim
  | some (YamlVal.vNum _) => []

/-- gray-matter frontmatter extraction: a leading `---` line, the YAML lines
up to the next `---` line, and the remaining content. -/
def matterSplit (content : Str) : List (Str × YamlVal) × Str :=
  match splitLines content with
  | [] => ([], content)
  | first :: rest =>
    if first == "---".toList then
      match rest.dropWhile (fun l => !(l == "---".toList)) with
      | [] => ([], content)
      | _ :: body =>
        (parseYamlLines (rest.takeWhile (fun l => !(l == "---".toList))),
          joinLines body)
    else ([], content)

/-- `if (rawFrontmatter.project) frontmatter.project = String(...)`. -/
def fmField (kvs : List (Str × YamlVal)) (k : Str) : Option Str :=
  match ylookup kvs k with
  | none => none
  | some v => if truthyYaml v then some (jsStringOfYaml v) else none

/-- Split a string at the first occurrence of a substring pattern,
returning the text before it and the text after it. -/
def splitAtSub (pat : Str) : Str → Option (Str × Str)
  | [] => if pat.isEmpty then some ([], []) else none
  | c :: rest =>
    if pat.isPrefixOf (c :: rest) then some ([], (c :: rest).drop pat.length)
    else (splitAtSub pat rest).map (fun p => (c :: p.1, p.2))

def fenceYamlNl : Str := "```yaml\n".toList

/-- `line.replace(/^## /, "")`. -/
def dropH2 (l : Str) : Str := if isH2 l then l.drop 3 else l

/-- `parseStorySection`: title from the first line, optional fenced YAML
block located by the first occurrence of the opening fence followed by a
closing fence, body trimmed from what follows.  (The JS regex would retry a
later opening fence when the first has no closing fence; the inputs where
that matters are outside the well-formed fragment treated here.) -/
def parseStorySection (sectionText : Str) (fm : FileFrontmatter) : UserStory :=
  let lines := splitLines sectionText
  let titleLine := lines.headD []
  let title := jsTrim (dropH2 titleLine)
  let restContent := joinLines lines.tail
  let mdBody : List (Str × YamlVal) × Str :=
    match splitAtSub fenceYamlNl restContent with
    | some (_, afterOpen) =>
      match splitAtSub fenceClose afterOpen with
      | some (yamlContent, post) =>
        (parseYamlLines (splitLines yamlContent), jsTrim post)
      | none => ([], jsTrim restContent)
    | none => ([], jsTrim restContent)
  let metadata := mdBody.1
  { title := title
    linearId := extractStringOrNull (ylookup metadata ("linear_id".toList))
    linearUrl := extractStringOrNull (ylookup metadata ("linear_url".toList))
    priority := extractNumberOrNull (ylookup metadata ("priority".toList))
    labels := extractLabels (ylookup metadata ("labels".toList))
    estimate := extractNumberOrNull (ylookup metadata ("estimate".toList))
    assignee := extractStringOrNull (ylookup metadata ("assignee".toList))
    status := extractStringOrNull (ylookup metadata ("status".toList))
    body := mdBody.2
    project := fm.project
    team := fm.team }

/-- Grouping of lines into the preamble before the first `## ` heading and
the heading-led sections (the `split(/^(?=## )/m)` boundaries). -/
def groupSections : List Str → List Str × List (List Str)
  | [] => ([], [])
  | l :: rest =>
    let r := groupSections rest
    if isH2 l then ([], (l :: r.1) :: r.2)
    else (l :: r.1, r.2)

def noH2Msg (filePath : Str) : Str :=
  "No H2 headings found in file: ".toList ++ filePath ++
    (". Each user story must start with an H2 heading (## ).").toList

/-- `parseMarkdownFile`. -/
def parseMarkdownFile (content : Str) (filePath : Str) :
    Except Str ParsedFile :=
  let fmBody := matterSplit content
  let fm : FileFrontmatter :=
    { project := fmField fmBody.1 ("project".toList)
      team := fmField fmBody.1 ("team".toList) }
  let lines := splitLines fmBody.2
  if lines.any isH2 then
    let secs := groupSections lines
    Except.ok
      { frontmatter := fm
        stories := (secs.1 :: secs.2).filterMap (fun g =>
          let trimmed := jsTrim (joinLines g)
          if isH2 trimmed then some (parseStorySection trimmed fm) else none)
        filePath := filePath }
  else Except.error (noH2Msg filePath)

/-! ## Document serializer (src/markdown/serializer.ts) -/

def truthyOS : Option Str → Bool
  | none => false
  | some s => !s.isEmpty

/-- `labels.join(", ")`. -/
def joinSep (sep : Str) : List Str → Str
  | [] => []
  | [x] => x
  | x :: y :: t => x ++ sep ++ joinSep sep (y :: t)

/-- One `key: value` line, emitted when the field is not null
(`if (story.x !== null) lines.push(...)`). -/
def optLine (kp : Str) : Option Str → List Str
  | some v => [kp ++ v]
  | none => []

/-- One numeric `key: value` line, emitted when the field is not null. -/
def optNumLine (kp : Str) : Option Int → List Str
  | some n => [kp ++ intToStr n]
  | none => []

/-- The `labels: [a, b]` line, emitted when the list is non-empty. -/
def labLine (labels : List Str) : List Str :=
  if labels.isEmpty then []
  else ["labels: [".toList ++ joinSep (", ".toList) labels ++ "]".toList]

/-- `buildYamlLines`. -/
def buildYamlLines (story : UserStory) : List Str :=
  optLine ("linear_id: ".toList) story.linearId ++
  optLine ("linear_url: ".toList) story.linearUrl ++
  optNumLine ("priority: ".toList) story.priority ++
  labLine story.labels ++
  optNumLine ("estimate: ".toList) story.estimate ++
  optLine ("assignee: ".toList) story.assignee ++
  optLine ("status: ".toList) story.status

/-- The parts one story contributes to the serializer's `parts` array. -/
def storyParts (story : UserStory) : List Str :=
  (("## ".toList ++ story.title) :: [[]]) ++
  (if (buildYamlLines story).isEmpty then []
   else ("```yaml".toList :: buildYamlLines story) ++ ["```".toList, []]) ++
  (if (jsTrim story.body).isEmpty then [] else [story.body, []])

/-- One quoted frontmatter line, emitted when the field is truthy. -/
def fmLine (kp : Str) : Option Str → List Str
  | some p => if p.isEmpty then [] else [kp ++ p ++ "\"".toList]
  | none => []

/-- The parts the optional frontmatter contributes. -/
def fmParts (fm : Option FileFrontmatter) : List Str :=
  match fm with
  | none => []
  | some f =>
    if truthyOS f.project || truthyOS f.team then
      ["---".toList] ++ fmLine ("project: \"".toList) f.project ++
        fmLine ("team: \"".toList) f.team ++ ["---".toList, []]
    else []

/-- `serializeStories`. -/
def serializeStories (stories : List UserStory)
    (fm : Option FileFrontmatter) : Str :=
  joinLines (fmParts fm ++ stories.flatMap storyParts)


/-! ### Trim and join/split support lemmas -/

theorem jsTrim_cons_ws (c : Char) (s : Str) (h : isWs c = true) :
    jsTrim (c :: s) = jsTrim s := by
  unfold jsTrim
  rw [List.dropWhile_cons_of_pos h]

theorem jsTrim_head_last (s : Str) (c d : Char) (hc : isWs c = false)
    (hd : isWs d = false) (hhead : s.head? = some c)
    (hlast : s.getLast? = some d) : jsTrim s = s := by
  have h1 : s.dropWhile isWs = s := by
    cases s with
    | nil => simp at hhead
    | cons a as =>
      have : a = c := by
        simp only [List.head?_cons, Option.some.injEq] at hhead
        exact hhead
      exact List.dropWhile_cons_of_neg (by simp [this, hc])
  have h2 : s.reverse.dropWhile isWs = s.reverse := by
    cases hr : s.reverse with
    | nil => rfl
    | cons a as =>
      have : a = d := by
        have h4 := List.head?_reverse s
        rw [hr] at h4
        simp only [List.head?_cons] at h4
        rw [hlast] at h4
        exact Option.some.inj h4
      exact List.dropWhile_cons_of_neg (by simp [this, hd])
  unfold jsTrim
  rw [h1, h2, List.reverse_reverse]

theorem splitOnChar_append_any (c : Char) (x rest : Str) :
    splitOnChar c (x ++ c :: rest) =
      splitOnChar c x ++ splitOnChar c rest := by
  induction x with
  | nil =>
    rw [List.nil_append, splitOnChar_cons_pos]
    rfl
  | cons a as ih =>
    by_cases ha : a = c
    · subst ha
      rw [List.cons_append, splitOnChar_cons_pos, ih, splitOnChar_cons_pos]
      rfl
    · obtain ⟨hd, tl, hr⟩ := splitOnChar_exists_cons c as
      obtain ⟨hd2, tl2, hr2⟩ := splitOnChar_exists_cons c (as ++ c :: rest)
      rw [List.cons_append, splitOnChar_cons_neg c a _ ha hd2 tl2 hr2,
        splitOnChar_cons_neg c a as ha hd tl hr]
      rw [ih, hr] at hr2
      injection hr2 with he1 he2
      rw [he1, ← he2]
      rfl

theorem splitJoin_flat (c : Char) (ps : List Str) (hne : ps ≠ []) :
    splitOnChar c (joinChar c ps) = ps.flatMap (splitOnChar c) := by
  induction ps with
  | nil => exact absurd rfl hne
  | cons x t ih =>
    cases t with
    | nil => simp [joinChar]
    | cons y t2 =>
      have : joinChar c (x :: y :: t2) = x ++ c :: joinChar c (y :: t2) := rfl
      rw [this, splitOnChar_append_any, ih (by simp)]
      simp

theorem joinChar_append (c : Char) (as bs : List Str) (ha : as ≠ [])
    (hb : bs ≠ []) :
    joinChar c (as ++ bs) = joinChar c as ++ c :: joinChar c bs := by
  induction as with
  | nil => exact absurd rfl ha
  | cons x t ih =>
    cases t with
    | nil =>
      cases bs with
      | nil => exact absurd rfl hb
      | cons b bt => rfl
    | cons y t2 =>
      have h1 : joinChar c ((x :: y :: t2) ++ bs) =
          x ++ c :: joinChar c ((y :: t2) ++ bs) := rfl
      have h2 : joinChar c (x :: y :: t2) = x ++ c :: joinChar c (y :: t2) :=
        rfl
      rw [h1, ih (by simp), h2, List.append_assoc]
      rfl

theorem joinChar_flat (c : Char) (ps : List Str) :
    joinChar c (ps.flatMap (splitOnChar c)) = joinChar c ps := by
  induction ps with
  | nil => rfl
  | cons x t ih =>
    cases t with
    | nil =>
      have h0 : ([x] : List Str).flatMap (splitOnChar c) = splitOnChar c x :=
        by simp
      rw [h0, join_split]
      rfl
    | cons y t2 =>
      have h0 : (x :: y :: t2).flatMap (splitOnChar c) =
          splitOnChar c x ++ (y :: t2).flatMap (splitOnChar c) := by
        simp
      rw [h0, joinChar_append c _ _ (splitOnChar_ne_nil c x) ?hb, join_split]
      case hb =>
        have h1 := splitOnChar_ne_nil c y
        cases he : splitOnChar c y with
        | nil => exact absurd he h1
        | cons a b => simp [he]
      rw [ih]
      rfl

theorem joinChar_concat_nil (c : Char) (ps : List Str) (hne : ps ≠ []) :
    joinChar c (ps ++ [[]]) = joinChar c ps ++ [c] := by
  rw [joinChar_append c ps [[]] hne (by simp)]
  rfl


/-! ### Well-formedness for the round-trip -/

/-- The YAML 1.1 boolean/null words in the casings js-yaml resolves
(yes/no/true/false/on/off/null, lowercase, Capitalized and ALLCAPS, plus the
single-letter forms of the 1.1 spec): a plain scalar equal to one of these is
re-typed to a boolean or null by the real engine, so the modelled string
fragment excludes them. -/
def yamlWord (s : Str) : Bool :=
  (["y", "Y", "n", "N", "yes", "Yes", "YES", "no", "No", "NO",
    "true", "True", "TRUE", "false", "False", "FALSE",
    "on", "On", "ON", "off", "Off", "OFF",
    "null", "Null", "NULL"].map String.toList).contains s

/-- Characters on which js-yaml plain-scalar syntax and type resolution are
inert: ASCII letters and digits, the blank, and punctuation that starts no
other scalar style and triggers no comment (`#`), anchor/alias (`&`, `*`),
tag (`!`), block scalar (`|`, `>`), directive (`%`), flow syntax
(`[ ] \x7b \x7d ,`), quoting (`"`, `'`, backslash) or merge (`<`). -/
def safeValChar (c : Char) : Bool :=
  c.isAlpha || c.isDigit || c == ' ' || c == '-' || c == '_' || c == '.' ||
  c == '/' || c == '@' || c == ':'

/-- No `: ` (colon blank) and no trailing colon: either would make js-yaml
read the value as a nested mapping and throw
(`mapping values are not allowed here`). -/
def okColons : Str → Bool
  | [] => true
  | [c] => !(c == ':')
  | c :: d :: rest => (!(c == ':') || !(d == ' ')) && okColons (d :: rest)

/-- A plain scalar the real YAML engine (js-yaml 3 via gray-matter, YAML 1.1
resolution) types as a string and returns verbatim: it starts with an ASCII
letter — so it can match none of the int (`3`, `0x1F`, `0b1`, `1_0`), float
(`3.5`, `1e3`, `.inf`, `.nan`), sexagesimal (`1:20`), timestamp
(`2002-12-14`) or sign-prefixed forms — uses only inert characters, contains
no colon-blank or trailing colon, and is not a boolean/null word. -/
def plainStringScalar (s : Str) : Bool :=
  match s with
  | [] => false
  | c :: _ => c.isAlpha && s.all safeValChar && okColons s && !yamlWord s

theorem isPrefixOf_self_append (p z : Str) : p.isPrefixOf (p ++ z) = true := by
  induction p with
  | nil => simp [List.isPrefixOf]
  | cons a as ih => simp [List.isPrefixOf, ih]

theorem prefix_head (p0 : Char) (ps : Str) (x : Char) (xs : Str)
    (h : (p0 :: ps).isPrefixOf (x :: xs) = true) : p0 = x := by
  simp only [List.isPrefixOf, Bool.and_eq_true, beq_iff_eq] at h
  exact h.1

theorem splitAtChar_append (c : Char) (pre post : Str) (hc : c ∉ pre) :
    splitAtChar c (pre ++ c :: post) = some (pre, post) := by
  induction pre with
  | nil => simp [splitAtChar]
  | cons a as ih =>
    have ha : ¬ a = c := fun he => hc (by simp [he])
    have has : c ∉ as := fun hm => hc (List.mem_cons_of_mem _ hm)
    rw [List.cons_append, splitAtChar, if_neg ha, ih has]
    rfl

theorem splitAtSub_skip (pat X Y : Str) (p0 : Char) (ps : Str)
    (hpat : pat = p0 :: ps) (hX : ∀ c ∈ X, ¬ p0 = c) :
    splitAtSub pat (X ++ Y) =
      (splitAtSub pat Y).map (fun p => (X ++ p.1, p.2)) := by
  induction X with
  | nil =>
    simp only [List.nil_append]
    cases hs : splitAtSub pat Y with
    | none => simp
    | some p => simp
  | cons a as ih =>
    have ha : ¬ p0 = a := hX a (List.mem_cons_self _ _)
    have hnp : ¬ pat.isPrefixOf (a :: (as ++ Y)) = true := by
      rw [hpat]
      intro hcon
      exact ha (prefix_head p0 ps a _ hcon)
    rw [List.cons_append, splitAtSub, if_neg hnp,
      ih (fun c hm => hX c (List.mem_cons_of_mem _ hm))]
    cases hs : splitAtSub pat Y with
    | none => simp
    | some p => simp

theorem splitAtSub_here (pat Y : Str) (hne : pat ≠ []) :
    splitAtSub pat (pat ++ Y) = some ([], Y) := by
  cases pat with
  | nil => exact absurd rfl hne
  | cons p0 ps =>
    have hpre : (p0 :: ps).isPrefixOf ((p0 :: ps) ++ Y) = true :=
      isPrefixOf_self_append _ _
    rw [List.cons_append] at hpre
    rw [List.cons_append, splitAtSub, if_pos hpre]
    have hd : List.drop (p0 :: ps).length (p0 :: (ps ++ Y)) = Y := by
      rw [← List.cons_append, List.drop_left]
    rw [hd]

/-! ### Line-structure support lemmas -/

theorem flatMap_splitOnChar (c : Char) (ps : List Str)
    (h : ∀ l ∈ ps, c ∉ l) : ps.flatMap (splitOnChar c) = ps := by
  induction ps with
  | nil => rfl
  | cons x t ih =>
    rw [List.flatMap_cons,
      splitOnChar_eq_of_not_mem c x (h x (List.mem_cons_self _ _)),
      ih (fun l hl => h l (List.mem_cons_of_mem _ hl))]
    rfl

theorem splitLines_joinLines (ps : List Str) (hne : ps ≠ [])
    (h : ∀ l ∈ ps, '\n' ∉ l) : splitLines (joinLines ps) = ps := by
  rw [splitLines, joinLines, splitJoin_flat _ _ hne, flatMap_splitOnChar _ _ h]

theorem mem_joinChar (c : Char) (ps : List Str) (a : Char)
    (h : a ∈ joinChar c ps) : a = c ∨ ∃ l ∈ ps, a ∈ l := by
  induction ps with
  | nil => simp [joinChar] at h
  | cons x t ih =>
    cases t with
    | nil => exact Or.inr ⟨x, by simp, h⟩
    | cons y t2 =>
      have hx : joinChar c (x :: y :: t2) = x ++ c :: joinChar c (y :: t2) := rfl
      rw [hx] at h
      rcases List.mem_append.mp h with h1 | h2
      · exact Or.inr ⟨x, by simp, h1⟩
      · rcases List.mem_cons.mp h2 with h3 | h4
        · exact Or.inl h3
        · rcases ih h4 with h5 | ⟨l, hl, ha⟩
          · exact Or.inl h5
          · exact Or.inr ⟨l, List.mem_cons_of_mem _ hl, ha⟩

theorem getLast_append_ne_nil (A z : Str) (hz : z ≠ []) :
    (A ++ z).getLast? = z.getLast? := by
  rw [List.getLast?_append]
  cases hzz : z with
  | nil => exact absurd hzz hz
  | cons b bs =>
    cases hg : (b :: bs).getLast? with
    | none => simp at hg
    | some d => rfl

theorem parseYamlLine_kv (key v : Str) (hk : ':' ∉ key)
    (hkey : jsTrim key = key) (hkne : key ≠ []) :
    parseYamlLine (key ++ ':' :: v) = some (key, yamlScalar v) := by
  unfold parseYamlLine
  rw [splitAtChar_append ':' key v hk]
  simp only [hkey]
  rw [if_neg (by simp [hkne])]

theorem joinChar_getLast (c : Char) (ps : List Str) (z : Str) (hz : z ≠ []) :
    (joinChar c (ps ++ [z])).getLast? = z.getLast? := by
  cases ps with
  | nil => rfl
  | cons p pt =>
    rw [joinChar_append c (p :: pt) [z] (by simp) (by simp)]
    have h0 : joinChar c [z] = z := rfl
    rw [h0, getLast_append_ne_nil _ (c :: z) (by simp),
      show (c :: z) = [c] ++ z from rfl, getLast_append_ne_nil [c] z hz]

theorem parseYamlLines_append (a b : List Str) :
    parseYamlLines (a ++ b) = parseYamlLines a ++ parseYamlLines b :=
  List.filterMap_append a b _

theorem isDigit_not_special (c : Char) (h : c.isDigit = true) :
    ¬ c = '\n' ∧ ¬ c = '`' := by
  constructor <;> intro he <;> rw [he] at h <;> exact absurd h (by decide)

theorem isH2_heading (t : Str) : isH2 ("## ".toList ++ t) = true := by
  rw [isH2]
  exact isPrefixOf_self_append _ _

theorem groupSections_cons_h2 (l : Str) (rest : List Str)
    (h : isH2 l = true) :
    groupSections (l :: rest) =
      ([], (l :: (groupSections rest).1) :: (groupSections rest).2) := by
  simp [groupSections, h]

theorem groupSections_cons_not (l : Str) (rest : List Str)
    (h : isH2 l = false) :
    groupSections (l :: rest) =
      (l :: (groupSections rest).1, (groupSections rest).2) := by
  simp [groupSections, h]

theorem groupSections_prepend (t rest : List Str)
    (h : ∀ x ∈ t, isH2 x = false) :
    groupSections (t ++ rest) =
      (t ++ (groupSections rest).1, (groupSections rest).2) := by
  induction t with
  | nil => simp
  | cons a tt ih =>
    rw [List.cons_append,
      groupSections_cons_not a _ (h a (List.mem_cons_self _ _)),
      ih (fun x hx => h x (List.mem_cons_of_mem _ hx))]
    rfl

theorem matterSplit_nosep (content : Str) (first : Str) (rest : List Str)
    (hsp : splitLines content = first :: rest)
    (hne : (first == "---".toList) = false) :
    matterSplit content = ([], content) := by
  unfold matterSplit
  rw [hsp]
  dsimp only []
  rw [if_neg (by
    intro hcon
    rw [show (first == "---".toList) = true from by
      exact beq_iff_eq.mpr (by simpa using hcon)] at hne
    exact Bool.noConfusion hne)]

theorem jsTrim_ws_nil (ws : Str) (h : ∀ c ∈ ws, isWs c = true) :
    jsTrim ws = [] := by
  have h1 : ws.dropWhile isWs = [] := by
    induction ws with
    | nil => rfl
    | cons a t ih =>
      rw [List.dropWhile_cons_of_pos (h a (List.mem_cons_self _ _))]
      exact ih (fun c hc => h c (List.mem_cons_of_mem _ hc))
  unfold jsTrim
  rw [h1]
  rfl

/-- The metadata lines of the C7 document: empty, whitespace-only and
non-numeric values. -/
def c7md (ws g : Str) : List Str :=
  ["linear_id:".toList ++ ws,
   "labels:".toList ++ ws,
   "priority: ".toList ++ g,
   "estimate:".toList ++ ws,
   "assignee:".toList,
   "status:".toList ++ ws]

/-- The lines of the C7 document. -/
def c7lines (ws g : Str) : List Str :=
  "## T".toList :: "```yaml".toList :: (c7md ws g ++ ["```".toList])

/-- The story the parser is expected to produce from the C7 document. -/
def c7story : UserStory :=
  { title := "T".toList
    linearId := none
    linearUrl := none
    priority := none
    labels := []
    estimate := none
    assignee := none
    status := none
    body := []
    project := none
    team := none }

theorem c7section (ws g : Str)
    (hws : ∀ c ∈ ws, c = ' ' ∨ c = '\t')
    (hg : jsTrim g = g) (hgne : g ≠ []) (hgnum : intSyntax g = false)
    (hgq : (g.head? == some '"') = false)
    (hgb : (g.head? == some '[') = false)
    (hgnl : '\n' ∉ g) (hgbt : '`' ∉ g) :
    parseStorySection (joinLines (c7lines ws g)) {} = c7story := by
  have hwsnl : '\n' ∉ ws := fun hm => by
    rcases hws '\n' hm with h | h <;> exact absurd h (by decide)
  have hwsbt : '`' ∉ ws := fun hm => by
    rcases hws '`' hm with h | h <;> exact absurd h (by decide)
  have hwsall : ∀ c ∈ ws, isWs c = true := fun c hc => by
    rcases hws c hc with h | h <;> (rw [h]; decide)
  have hmdnl : ∀ l ∈ c7md ws g, '\n' ∉ l := by
    intro l hl
    have hl2 : l = "linear_id:".toList ++ ws ∨ l = "labels:".toList ++ ws ∨
        l = "priority: ".toList ++ g ∨ l = "estimate:".toList ++ ws ∨
        l = "assignee:".toList ∨ l = "status:".toList ++ ws := by
      simpa [c7md] using hl
    rcases hl2 with h | h | h | h | h | h <;> subst h <;> intro hm
    · rcases List.mem_append.mp hm with h1 | h1
      · exact absurd h1 (by decide)
      · exact hwsnl h1
    · rcases List.mem_append.mp hm with h1 | h1
      · exact absurd h1 (by decide)
      · exact hwsnl h1
    · rcases List.mem_append.mp hm with h1 | h1
      · exact absurd h1 (by decide)
      · exact hgnl h1
    · rcases List.mem_append.mp hm with h1 | h1
      · exact absurd h1 (by decide)
      · exact hwsnl h1
    · exact absurd hm (by decide)
    · rcases List.mem_append.mp hm with h1 | h1
      · exact absurd h1 (by decide)
      · exact hwsnl h1
  have hmdbt : ∀ l ∈ c7md ws g, '`' ∉ l := by
    intro l hl
    have hl2 : l = "linear_id:".toList ++ ws ∨ l = "labels:".toList ++ ws ∨
        l = "priority: ".toList ++ g ∨ l = "estimate:".toList ++ ws ∨
        l = "assignee:".toList ∨ l = "status:".toList ++ ws := by
      simpa [c7md] using hl
    rcases hl2 with h | h | h | h | h | h <;> subst h <;> intro hm
    · rcases List.mem_append.mp hm with h1 | h1
      · exact absurd h1 (by decide)
      · exact hwsbt h1
    · rcases List.mem_append.mp hm with h1 | h1
      · exact absurd h1 (by decide)
      · exact hwsbt h1
    · rcases List.mem_append.mp hm with h1 | h1
      · exact absurd h1 (by decide)
      · exact hgbt h1
    · rcases List.mem_append.mp hm with h1 | h1
      · exact absurd h1 (by decide)
      · exact hwsbt h1
    · exact absurd hm (by decide)
    · rcases List.mem_append.mp hm with h1 | h1
      · exact absurd h1 (by decide)
      · exact hwsbt h1
  have hlnl : ∀ l ∈ c7lines ws g, '\n' ∉ l := by
    intro l hl
    unfold c7lines at hl
    rcases List.mem_cons.mp hl with h | h
    · subst h
      exact (by decide)
    · rcases List.mem_cons.mp h with h | h
      · subst h
        exact (by decide)
      · rcases List.mem_append.mp h with h | h
        · exact hmdnl l h
        · have h0 : l = "```".toList := by simpa using h
          subst h0
          exact (by decide)
  have hsplitsec : splitLines (joinLines (c7lines ws g)) = c7lines ws g :=
    splitLines_joinLines _ (by unfold c7lines; simp) hlnl
  simp only [parseStorySection]
  rw [hsplitsec]
  rw [show c7lines ws g = "## T".toList ::
    ("```yaml".toList :: (c7md ws g ++ ["```".toList])) from rfl]
  simp only [List.headD_cons, List.tail_cons]
  rw [show jsTrim (dropH2 ("## T".toList)) = "T".toList from by decide]
  have hrest : joinLines ("```yaml".toList :: (c7md ws g ++ ["```".toList])) =
      fenceYamlNl ++ joinLines (c7md ws g ++ ["```".toList]) := by
    have h1 : joinLines ("```yaml".toList :: (c7md ws g ++ ["```".toList])) =
        "```yaml".toList ++ '\n' ::
          joinLines (c7md ws g ++ ["```".toList]) := rfl
    rw [h1, show fenceYamlNl = "```yaml".toList ++ ['\n'] from by decide,
      List.append_assoc]
    rfl
  have hs1 : splitAtSub fenceYamlNl (joinLines ("```yaml".toList ::
      (c7md ws g ++ ["```".toList]))) =
      some ([], joinLines (c7md ws g ++ ["```".toList])) := by
    rw [hrest, splitAtSub_here _ _ (by decide)]
  rw [hs1]
  dsimp only []
  have hJ7 : joinLines (c7md ws g ++ ["```".toList]) =
      (joinLines (c7md ws g) ++ ['\n']) ++ fenceClose := by
    rw [joinLines, joinChar_append '\n' _ _ (by unfold c7md; simp) (by simp)]
    rw [show joinChar '\n' ["```".toList] = fenceClose from rfl,
      List.append_assoc]
    rfl
  have hXc : ∀ c ∈ joinLines (c7md ws g) ++ ['\n'], ¬ '`' = c := by
    intro c hc
    rcases List.mem_append.mp hc with h1 | h2
    · rcases mem_joinChar '\n' _ c h1 with h3 | ⟨l, hl, hcl⟩
      · rw [h3]
        decide
      · intro he
        exact hmdbt l hl (he ▸ hcl)
    · have h3 : c = '\n' := by simpa using h2
      rw [h3]
      decide
  have hs2 : splitAtSub fenceClose (joinLines (c7md ws g ++
      ["```".toList])) = some (joinLines (c7md ws g) ++ ['\n'], []) := by
    rw [hJ7, splitAtSub_skip fenceClose _ fenceClose '`' ("``".toList)
      (by decide) hXc]
    have hhere : splitAtSub fenceClose fenceClose = some ([], []) := by
      have h0 := splitAtSub_here fenceClose [] (by decide)
      rwa [List.append_nil] at h0
    rw [hhere]
    simp
  rw [hs2]
  dsimp only []
  have hysplit : splitLines (joinLines (c7md ws g) ++ ['\n']) =
      c7md ws g ++ [[]] := by
    rw [show joinLines (c7md ws g) ++ ['\n'] =
      joinLines (c7md ws g ++ [[]]) from
      (joinChar_concat_nil '\n' _ (by unfold c7md; simp)).symm]
    apply splitLines_joinLines _ (by unfold c7md; simp)
    intro l hl
    rcases List.mem_append.mp hl with h1 | h2
    · exact hmdnl l h1
    · have h0 : l = [] := by simpa using h2
      subst h0
      simp
  rw [hysplit]
  have hwsY : yamlScalar ws = YamlVal.vNull := by
    simp only [yamlScalar, jsTrim_ws_nil ws hwsall]
    rfl
  have hgY : yamlScalar (' ' :: g) = YamlVal.vStr g := by
    have htg : jsTrim (' ' :: g) = g := by
      rw [jsTrim_cons_ws _ _ (by decide), hg]
    simp only [yamlScalar, htg]
    rw [if_neg (by simp [hgne]), if_neg (by simp [hgq]),
      if_neg (by simp [hgb]), if_neg (by simp [hgnum])]
  have hv1 : parseYamlLine ("linear_id:".toList ++ ws) =
      some ("linear_id".toList, YamlVal.vNull) := by
    rw [show "linear_id:".toList ++ ws = "linear_id".toList ++ ':' :: ws from
      by rw [show "linear_id:".toList = "linear_id".toList ++ [':'] from
        by decide, List.append_assoc]; rfl]
    rw [parseYamlLine_kv _ _ (by decide) (by decide) (by decide), hwsY]
  have hv2 : parseYamlLine ("labels:".toList ++ ws) =
      some ("labels".toList, YamlVal.vNull) := by
    rw [show "labels:".toList ++ ws = "labels".toList ++ ':' :: ws from
      by rw [show "labels:".toList = "labels".toList ++ [':'] from
        by decide, List.append_assoc]; rfl]
    rw [parseYamlLine_kv _ _ (by decide) (by decide) (by decide), hwsY]
  have hv3 : parseYamlLine ("priority: ".toList ++ g) =
      some ("priority".toList, YamlVal.vStr g) := by
    rw [show "priority: ".toList ++ g =
      "priority".toList ++ ':' :: (' ' :: g) from
      by rw [show "priority: ".toList = "priority".toList ++ [':', ' '] from
        by decide, List.append_assoc]; rfl]
    rw [parseYamlLine_kv _ _ (by decide) (by decide) (by decide), hgY]
  have hv4 : parseYamlLine ("estimate:".toList ++ ws) =
      some ("estimate".toList, YamlVal.vNull) := by
    rw [show "estimate:".toList ++ ws = "estimate".toList ++ ':' :: ws from
      by rw [show "estimate:".toList = "estimate".toList ++ [':'] from
        by decide, List.append_assoc]; rfl]
    rw [parseYamlLine_kv _ _ (by decide) (by decide) (by decide), hwsY]
  have hv5 : parseYamlLine ("assignee:".toList) =
      some ("assignee".toList, YamlVal.vNull) := by decide
  have hv6 : parseYamlLine ("status:".toList ++ ws) =
      some ("status".toList, YamlVal.vNull) := by
    rw [show "status:".toList ++ ws = "status".toList ++ ':' :: ws from
      by rw [show "status:".toList = "status".toList ++ [':'] from
        by decide, List.append_assoc]; rfl]
    rw [parseYamlLine_kv _ _ (by decide) (by decide) (by decide), hwsY]
  have hmeta : parseYamlLines (c7md ws g ++ [[]]) =
      [("linear_id".toList, YamlVal.vNull),
       ("labels".toList, YamlVal.vNull),
       ("priority".toList, YamlVal.vStr g),
       ("estimate".toList, YamlVal.vNull),
       ("assignee".toList, YamlVal.vNull),
       ("status".toList, YamlVal.vNull)] := by
    rw [parseYamlLines_append, show parseYamlLines [[]] = [] from rfl,
      List.append_nil]
    unfold c7md parseYamlLines
    simp only [List.filterMap_cons, List.filterMap_nil, hv1, hv2, hv3, hv4,
      hv5, hv6]
  rw [hmeta]
  obtain ⟨g0, grest, hgc⟩ : ∃ a t, g = a :: t := by
    cases g with
    | nil => exact absurd rfl hgne
    | cons a t => exact ⟨a, t, rfl⟩
  subst hgc
  have hnum : extractNumberOrNull (ylookup
      [("linear_id".toList, YamlVal.vNull),
       ("labels".toList, YamlVal.vNull),
       ("priority".toList, YamlVal.vStr (g0 :: grest)),
       ("estimate".toList, YamlVal.vNull),
       ("assignee".toList, YamlVal.vNull),
       ("status".toList, YamlVal.vNull)] ("priority".toList)) = none := by
    rw [show ylookup
      [("linear_id".toList, YamlVal.vNull),
       ("labels".toList, YamlVal.vNull),
       ("priority".toList, YamlVal.vStr (g0 :: grest)),
       ("estimate".toList, YamlVal.vNull),
       ("assignee".toList, YamlVal.vNull),
       ("status".toList, YamlVal.vNull)] ("priority".toList) =
      some (YamlVal.vStr (g0 :: grest)) from rfl]
    show jsNumberOfStr (g0 :: grest) = none
    simp only [jsNumberOfStr, hg]
    rw [if_neg (by simp), if_neg (by simp [hgnum])]
  rw [hnum]
  rfl

/-- **C7** (`linearstories`): metadata value coercion.  In a parsed story
section, a key with an empty value (`linear_id:`, `assignee:`), a
whitespace-only value (`estimate:`, `status:`, and `labels:` for the label
list), or an absent key (`linear_url`) yields `null` (the empty list for
labels); and a numeric field (`priority`) whose value is an arbitrary
scalar that fails to parse as a number yields `null` rather than raising an
error — the parse still succeeds.  The garbage value ranges over the plain
scalars the YAML engine types as strings (`plainStringScalar`: leading ASCII
letter, inert characters, no colon-blank, not a boolean/null word — so the
engine neither re-types it to a number/boolean nor throws) that JS `Number`
maps to `NaN` (every such string except the exact word `Infinity`). -/
theorem linearstories_C7_metadata_coercion (ws g path : Str)
    (hws : ∀ c ∈ ws, c = ' ' ∨ c = '\t')
    (hg : jsTrim g = g) (hgne : g ≠ []) (hgnum : intSyntax g = false)
    (hgq : (g.head? == some '"') = false)
    (hgb : (g.head? == some '[') = false)
    (hgnl : '\n' ∉ g) (hgbt : '`' ∉ g)
    (hgp : plainStringScalar g = true)
    (hginf : g ≠ "Infinity".toList) :
    parseMarkdownFile (joinLines (c7lines ws g)) path =
      Except.ok
        { frontmatter := {}
          stories := [c7story]
          filePath := path } := by
  have hwsnl : '\n' ∉ ws := fun hm => by
    rcases hws '\n' hm with h | h <;> exact absurd h (by decide)
  have hlnl : ∀ l ∈ c7lines ws g, '\n' ∉ l := by
    intro l hl
    unfold c7lines at hl
    rcases List.mem_cons.mp hl with h | h
    · subst h
      exact (by decide)
    · rcases List.mem_cons.mp h with h | h
      · subst h
        exact (by decide)
      · rcases List.mem_append.mp h with h | h
        · have hl2 : l = "linear_id:".toList ++ ws ∨
              l = "labels:".toList ++ ws ∨
              l = "priority: ".toList ++ g ∨
              l = "estimate:".toList ++ ws ∨
              l = "assignee:".toList ∨ l = "status:".toList ++ ws := by
            simpa [c7md] using h
          rcases hl2 with h | h | h | h | h | h <;> subst h <;> intro hm
          · rcases List.mem_append.mp hm with h1 | h1
            · exact absurd h1 (by decide)
            · exact hwsnl h1
          · rcases List.mem_append.mp hm with h1 | h1
            · exact absurd h1 (by decide)
            · exact hwsnl h1
          · rcases List.mem_append.mp hm with h1 | h1
            · exact absurd h1 (by decide)
            · exact hgnl h1
          · rcases List.mem_append.mp hm with h1 | h1
            · exact absurd h1 (by decide)
            · exact hwsnl h1
          · exact absurd hm (by decide)
          · rcases List.mem_append.mp hm with h1 | h1
            · exact absurd h1 (by decide)
            · exact hwsnl h1
        · have h0 : l = "```".toList := by simpa using h
          subst h0
          exact (by decide)
  have hsplitc : splitLines (joinLines (c7lines ws g)) = c7lines ws g :=
    splitLines_joinLines _ (by unfold c7lines; simp) hlnl
  have hms := matterSplit_nosep (joinLines (c7lines ws g)) ("## T".toList)
    ("```yaml".toList :: (c7md ws g ++ ["```".toList]))
    (by rw [hsplitc]; rfl) (by decide)
  have hany : (c7lines ws g).any isH2 = true := by
    rw [show c7lines ws g = "## T".toList ::
      ("```yaml".toList :: (c7md ws g ++ ["```".toList])) from rfl,
      List.any_cons, show isH2 ("## T".toList) = true from by decide]
    rfl
  have hgs : groupSections (c7lines ws g) = ([], [c7lines ws g]) := by
    rw [show c7lines ws g = "## T".toList ::
      ("```yaml".toList :: (c7md ws g ++ ["```".toList])) from rfl,
      groupSections_cons_h2 _ _ (by decide),
      groupSections_cons_not _ _ (by decide),
      groupSections_prepend (c7md ws g) ["```".toList] (by
        intro x hx
        have hl2 : x = "linear_id:".toList ++ ws ∨
            x = "labels:".toList ++ ws ∨
            x = "priority: ".toList ++ g ∨
            x = "estimate:".toList ++ ws ∨
            x = "assignee:".toList ∨ x = "status:".toList ++ ws := by
          simpa [c7md] using hx
        rcases hl2 with h | h | h | h | h | h <;> subst h
        · exact isH2_cons_ne 'l' _ (by decide)
        · exact isH2_cons_ne 'l' _ (by decide)
        · exact isH2_cons_ne 'p' _ (by decide)
        · exact isH2_cons_ne 'e' _ (by decide)
        · exact (by decide)
        · exact isH2_cons_ne 's' _ (by decide)),
      groupSections_cons_not _ _ (by decide)]
    rfl
  have htrim : jsTrim (joinLines (c7lines ws g)) =
      joinLines (c7lines ws g) := by
    refine jsTrim_head_last _ '#' '`' (by decide) (by decide) rfl ?_
    rw [show c7lines ws g = ("## T".toList :: "```yaml".toList ::
      c7md ws g) ++ ["```".toList] from rfl, joinLines,
      joinChar_getLast '\n' _ _ (by decide)]
    decide
  have hh2 : isH2 (jsTrim (joinLines (c7lines ws g))) = true := by
    rw [htrim, show joinLines (c7lines ws g) = "## T".toList ++ '\n' ::
      joinLines ("```yaml".toList :: (c7md ws g ++ ["```".toList]))
      from rfl,
      show "## T".toList = "## ".toList ++ "T".toList from by decide,
      List.append_assoc]
    exact isH2_heading _
  simp only [parseMarkdownFile]
  rw [hms]
  dsimp only []
  rw [hsplitc, if_pos hany, hgs]
  dsimp only []
  rw [List.filterMap_cons]
  have hnil : isH2 (jsTrim (joinLines ([] : List Str))) = false := isH2_nil
  rw [if_neg (by simp [hnil])]
  rw [show fmField ([] : List (Str × YamlVal)) ("project".toList) =
    (none : Option Str) from rfl,
    show fmField ([] : List (Str × YamlVal)) ("team".toList) =
    (none : Option Str) from rfl]
  rw [List.filterMap_cons]
  rw [if_pos hh2, htrim,
    c7section ws g hws hg hgne hgnum hgq hgb hgnl hgbt]
  rfl

theorem linearstories_C7_witness :
    (∀ c ∈ ("  ".toList : Str), c = ' ' ∨ c = '\t') ∧
    jsTrim ("high".toList) = "high".toList ∧
    parseMarkdownFile (joinLines (c7lines ("  ".toList) ("high".toList)))
      ("a.md".toList) =
      Except.ok
        { frontmatter := {}
          stories := [c7story]
          filePath := "a.md".toList } :=
  ⟨by decide, by decide,
    linearstories_C7_metadata_coercion ("  ".toList) ("high".toList)
      ("a.md".toList) (by decide) (by decide) (by decide) (by decide)
      (by decide) (by decide) (by decide) (by decide) (by decide)
      (by decide)⟩

/-! ## Issue gateway (src/linear/issues.ts) -/

def createFailMsg (title : Str) : Str :=
  "Failed to create issue: \"".toList ++ title ++ "\"".toList

def updateFailMsg (issueId : Str) : Str :=
  "Failed to update issue: \"".toList ++ issueId ++ "\"".toList

def createWrapMsg (title msg : Str) : Str :=
  "Failed to create issue: \"".toList ++ title ++ "\" - ".toList ++ msg

def updateWrapMsg (issueId msg : Str) : Str :=
  "Failed to update issue: \"".toList ++ issueId ++ "\" - ".toList ++ msg

/-- `createIssue`: a client throw is wrapped into a LinearApiError message, a
falsy `success` flag becomes a LinearApiError. -/
def createIssue (env : Env) (input : CreateIssueInput) :
    Except Str CreatedIssue × List Call :=
  match env.createIssueRaw input with
  | Except.error e =>
    (Except.error (createWrapMsg input.title e), [Call.createIssueCall input])
  | Except.ok (false, _) =>
    (Except.error (createFailMsg input.title), [Call.createIssueCall input])
  | Except.ok (true, issue) =>
    (Except.ok issue, [Call.createIssueCall input])

/-- `updateIssue`. -/
def updateIssue (env : Env) (issueId : Str) (input : UpdateIssueInput) :
    Except Str Str × List Call :=
  match env.updateIssueRaw issueId input with
  | Except.error e =>
    (Except.error (updateWrapMsg issueId e), [Call.updateIssueCall issueId input])
  | Except.ok (false, _) =>
    (Except.error (updateFailMsg issueId), [Call.updateIssueCall issueId input])
  | Except.ok (true, _) =>
    (Except.ok issueId, [Call.updateIssueCall issueId input])

/-! ## Importer (src/sync/importer.ts) -/

structure ResolvedConfig where
  apiKey : Str := []
  defaultTeam : Option Str := none
  defaultProject : Option Str := none
  defaultLabels : List Str := []
deriving DecidableEq, Repr

structure ImportOptions where
  files : List Str := []
  config : ResolvedConfig := {}
  team : Option Str := none
  project : Option Str := none
  dryRun : Bool := false
  noWriteBack : Bool := false
deriving DecidableEq, Repr

inductive ImportAction where
  | created
  | updated
  | skipped
  | failed
deriving DecidableEq, Repr

structure ImportResult where
  story : UserStory
  action : ImportAction
  linearId : Option Str := none
  linearUrl : Option Str := none
  error : Option Str := none
deriving DecidableEq, Repr

structure ImportSummary where
  total : Nat
  created : Nat
  updated : Nat
  failed : Nat
  skipped : Nat
  results : List ImportResult
deriving DecidableEq, Repr

def noTeamMsg : Str :=
  "No team specified for story and no default team configured".toList

/-- `deduplicateLabels` (`Set`-based, order preserving). -/
def dedupAux (seen : List Str) : List Str → List Str
  | [] => []
  | l :: rest =>
    if seen.contains l then dedupAux seen rest
    else l :: dedupAux (l :: seen) rest

def deduplicateLabels (storyLabels defaultLabels : List Str) : List Str :=
  dedupAux [] (storyLabels ++ defaultLabels)

/-- The conditional assembly of `CreateIssueInput` in `createStory`; JS
truthiness guards the string-valued fields and `!== null` guards the
numeric ones. -/
def buildCreateInput (story : UserStory) (teamId : Str)
    (projectId : Option Str) (labelIds : Option (List Str))
    (assigneeId stateId : Option Str) : CreateIssueInput :=
  { title := story.title
    teamId := teamId
    description := if story.body.isEmpty then none else some story.body
    projectId := if truthyOS projectId then projectId else none
    labelIds := match labelIds with
      | some ls => if ls.isEmpty then none else some ls
      | none => none
    assigneeId := if truthyOS assigneeId then assigneeId else none
    priority := story.priority
    estimate := story.estimate
    stateId := if truthyOS stateId then stateId else none }

/-- The conditional assembly of the update input in `updateStory`. -/
def buildUpdateInput (story : UserStory) (projectId : Option Str)
    (labelIds : Option (List Str)) (assigneeId stateId : Option Str) :
    UpdateIssueInput :=
  { title := story.title
    description := if story.body.isEmpty then none else some story.body
    projectId := if truthyOS projectId then projectId else none
    labelIds := match labelIds with
      | some ls => if ls.isEmpty then none else some ls
      | none => none
    assigneeId := if truthyOS assigneeId then assigneeId else none
    priority := story.priority
    estimate := story.estimate
    stateId := if truthyOS stateId then stateId else none }

/-- `createStory`. -/
def createStory (env : Env) (story : UserStory) (teamId : Str)
    (projectId : Option Str) (labelIds : Option (List Str))
    (assigneeId stateId : Option Str) :
    Except Str ImportResult × List Call :=
  match createIssue env
    (buildCreateInput story teamId projectId labelIds assigneeId stateId) with
  | (Except.error e, tr) => (Except.error e, tr)
  | (Except.ok issue, tr) =>
    (Except.ok
      { story := story
        action := ImportAction.created
        linearId := some issue.identifier
        linearUrl := some issue.url }, tr)

/-- `updateStory` (`story.linearId as string` is the truthy identifier). -/
def updateStory (env : Env) (story : UserStory) (projectId : Option Str)
    (labelIds : Option (List Str)) (assigneeId stateId : Option Str) :
    Except Str ImportResult × List Call :=
  match updateIssue env (story.linearId.getD [])
    (buildUpdateInput story projectId labelIds assigneeId stateId) with
  | (Except.error e, tr) => (Except.error e, tr)
  | (Except.ok ident, tr) =>
    (Except.ok
      { story := story
        action := ImportAction.updated
        linearId := some ident
        linearUrl := story.linearUrl }, tr)

/-- The project-determination step of `processStory`
(`story.project ?? options.project ?? config.defaultProject`, resolved only
when truthy). -/
def resolveProjectStep (env : Env) (st : RState) (story : UserStory)
    (options : ImportOptions) (teamId : Str) :
    Except Str (Option Str) × RState × List Call :=
  match (story.project).or ((options.project).or
      options.config.defaultProject) with
  | none => (Except.ok none, st, [])
  | some pn =>
    if pn.isEmpty then (Except.ok none, st, [])
    else
      match resolveProjectId env st pn teamId with
      | (Except.error e, st1, tr) => (Except.error e, st1, tr)
      | (Except.ok pid, st1, tr) => (Except.ok (some pid), st1, tr)

/-- The label step (`allLabels.length > 0 ? resolveLabelIds : undefined`). -/
def resolveLabelsStep (env : Env) (st : RState) (story : UserStory)
    (options : ImportOptions) :
    Except Str (Option (List Str)) × RState × List Call :=
  let allLabels := deduplicateLabels story.labels options.config.defaultLabels
  if allLabels.isEmpty then (Except.ok none, st, [])
  else
    match resolveLabelIds env st allLabels with
    | (Except.error e, st1, tr) => (Except.error e, st1, tr)
    | (Except.ok ids, st1, tr) => (Except.ok (some ids), st1, tr)

/-- The assignee step (`if (story.assignee)`). -/
def resolveAssigneeStep (env : Env) (st : RState) (story : UserStory) :
    Except Str (Option Str) × RState × List Call :=
  match story.assignee with
  | none => (Except.ok none, st, [])
  | some a =>
    if a.isEmpty then (Except.ok none, st, [])
    else resolveAssigneeId env st a

/-- The workflow-state step (`if (story.status)`). -/
def resolveStateStep (env : Env) (st : RState) (story : UserStory)
    (teamId : Str) : Except Str (Option Str) × RState × List Call :=
  match story.status with
  | none => (Except.ok none, st, [])
  | some sn =>
    if sn.isEmpty then (Except.ok none, st, [])
    else resolveWorkflowStateId env st sn teamId

/-- The body of `processStory` after the team id resolved: remaining
resolutions, then the create-vs-update branch on `if (story.linearId)`. -/
def processWithTeam (env : Env) (st : RState) (story : UserStory)
    (options : ImportOptions) (teamId : Str) :
    Except Str ImportResult × RState × List Call :=
  match resolveProjectStep env st story options teamId with
  | (Except.error e, st1, tr1) => (Except.error e, st1, tr1)
  | (Except.ok projectId, st1, tr1) =>
    match resolveLabelsStep env st1 story options with
    | (Except.error e, st2, tr2) => (Except.error e, st2, tr1 ++ tr2)
    | (Except.ok labelIds, st2, tr2) =>
      match resolveAssigneeStep env st2 story with
      | (Except.error e, st3, tr3) => (Except.error e, st3, tr1 ++ tr2 ++ tr3)
      | (Except.ok assigneeId, st3, tr3) =>
        match resolveStateStep env st3 story teamId with
        | (Except.error e, st4, tr4) =>
          (Except.error e, st4, tr1 ++ tr2 ++ tr3 ++ tr4)
        | (Except.ok stateId, st4, tr4) =>
          if truthyOS story.linearId then
            match updateStory env story projectId labelIds assigneeId
                stateId with
            | (r, tr5) => (r, st4, tr1 ++ tr2 ++ tr3 ++ tr4 ++ tr5)
          else
            match createStory env story teamId projectId labelIds assigneeId
                stateId with
            | (r, tr5) => (r, st4, tr1 ++ tr2 ++ tr3 ++ tr4 ++ tr5)

/-- `processStory`: dry-run short-circuit, team determination with the falsy
check, then the resolution pipeline; every error escaping the pipeline is
caught at the story boundary and downgraded to a `failed` result. -/
def processStory (env : Env) (st : RState) (story : UserStory)
    (options : ImportOptions) : ImportResult × RState × List Call :=
  if options.dryRun then
    ({ story := story, action := ImportAction.skipped }, st, [])
  else
    match (story.team).or ((options.team).or
        options.config.defaultTeam) with
    | none =>
      ({ story := story, action := ImportAction.failed,
         error := some noTeamMsg }, st, [])
    | some tn =>
      if tn.isEmpty then
        ({ story := story, action := ImportAction.failed,
           error := some noTeamMsg }, st, [])
      else
        match resolveTeamId env st tn with
        | (Except.error e, st1, tr1) =>
          ({ story := story, action := ImportAction.failed,
             error := some e }, st1, tr1)
        | (Except.ok teamId, st1, tr1) =>
          match processWithTeam env st1 story options teamId with
          | (Except.error e, st2, tr2) =>
            ({ story := story, action := ImportAction.failed,
               error := some e }, st2, tr1 ++ tr2)
          | (Except.ok r, st2, tr2) => (r, st2, tr1 ++ tr2)

/-- The per-file story loop of `importStories`, also collecting the
write-back updates for created stories with truthy id and url. -/
def storiesLoop (env : Env) (st : RState) (options : ImportOptions) :
    List UserStory →
    List ImportResult × List WriteBackUpdate × RState × List Call
  | [] => ([], [], st, [])
  | s :: rest =>
    match processStory env st s options with
    | (r, st2, tr) =>
      match storiesLoop env st2 options rest with
      | (rs, wbs, st3, tr2) =>
        (r :: rs,
         (if r.action == ImportAction.created && truthyOS r.linearId &&
             truthyOS r.linearUrl then
            { title := s.title, linearId := r.linearId.getD [],
              linearUrl := r.linearUrl.getD [] } :: wbs
          else wbs), st3, tr ++ tr2)

/-- One file of `importStories`: read, parse (an uncaught parse error aborts
the whole run), process the stories, then conditionally write back. -/
def fileStep (env : Env) (st : RState) (options : ImportOptions)
    (filePath : Str) :
    Except Str (List ImportResult) × RState × List Call :=
  let fileContent := env.readFile filePath
  match parseMarkdownFile fileContent filePath with
  | Except.error e => (Except.error e, st, [])
  | Except.ok parsed =>
    match storiesLoop env st options parsed.stories with
    | (rs, wbs, st2, tr) =>
      if !options.dryRun && !options.noWriteBack && !wbs.isEmpty then
        (Except.ok rs, st2, tr ++ [Call.writeFileCall filePath
          (writeBackIds fileContent wbs)])
      else (Except.ok rs, st2, tr)

/-- The file loop of `importStories`. -/
def filesLoop (env : Env) (st : RState) (options : ImportOptions) :
    List Str → Except Str (List ImportResult) × RState × List Call
  | [] => (Except.ok [], st, [])
  | f :: rest =>
    match fileStep env st options f with
    | (Except.error e, st2, tr) => (Except.error e, st2, tr)
    | (Except.ok rs, st2, tr) =>
      match filesLoop env st2 options rest with
      | (Except.error e, st3, tr2) => (Except.error e, st3, tr ++ tr2)
      | (Except.ok rs2, st3, tr2) => (Except.ok (rs ++ rs2), st3, tr ++ tr2)

/-- `buildSummary`. -/
def buildSummary (results : List ImportResult) : ImportSummary :=
  { total := results.length
    created := results.countP (fun r => r.action == ImportAction.created)
    updated := results.countP (fun r => r.action == ImportAction.updated)
    failed := results.countP (fun r => r.action == ImportAction.failed)
    skipped := results.countP (fun r => r.action == ImportAction.skipped)
    results := results }

/-- `importStories`: fresh resolver, file loop, summary.  An error is a
thrown exception escaping to the caller. -/
def importStories (env : Env) (options : ImportOptions) :
    Except Str ImportSummary × RState × List Call :=
  match filesLoop env {} options options.files with
  | (Except.error e, st, tr) => (Except.error e, st, tr)
  | (Except.ok rs, st, tr) => (Except.ok (buildSummary rs), st, tr)

/-! ### Success-path lemmas for the importer pipeline -/

theorem teamQuery_ok (env : Env) (st : RState) (n : Str)
    (h : ∀ m, ∃ t ts, env.teams m = Except.ok (t :: ts)) :
    ∃ tid st2, teamQuery env st n =
      (Except.ok tid, st2, [Call.teamsQuery n]) := by
  obtain ⟨t, ts, ht⟩ := h n
  unfold teamQuery
  rw [ht]
  exact ⟨t, _, rfl⟩

theorem resolveTeamId_ok (env : Env) (st : RState) (n : Str)
    (h : ∀ m, ∃ t ts, env.teams m = Except.ok (t :: ts)) :
    ∃ tid st2 tr, resolveTeamId env st n = (Except.ok tid, st2, tr) := by
  unfold resolveTeamId
  by_cases hu : isUuid n = true
  · rw [if_pos hu]
    exact ⟨n, st, [], rfl⟩
  · rw [if_neg hu]
    cases hmg : mget st.teamCache n with
    | none =>
      obtain ⟨tid, st2, hq⟩ := teamQuery_ok env st n h
      exact ⟨tid, st2, _, hq⟩
    | some c =>
      dsimp only []
      by_cases hc : c.isEmpty = true
      · rw [if_pos hc]
        obtain ⟨tid, st2, hq⟩ := teamQuery_ok env st n h
        exact ⟨tid, st2, _, hq⟩
      · rw [if_neg hc]
        exact ⟨c, st, [], rfl⟩

theorem projectQuery_ok (env : Env) (st : RState) (n t : Str)
    (h : ∀ m tt, ∃ p ps, env.projects m tt = Except.ok (p :: ps)) :
    ∃ pid st2, projectQuery env st n t =
      (Except.ok pid, st2, [Call.projectsQuery t n]) := by
  obtain ⟨p, ps, hp⟩ := h n t
  unfold projectQuery
  rw [hp]
  exact ⟨p, _, rfl⟩

theorem resolveProjectId_ok (env : Env) (st : RState) (n t : Str)
    (h : ∀ m tt, ∃ p ps, env.projects m tt = Except.ok (p :: ps)) :
    ∃ pid st2 tr, resolveProjectId env st n t =
      (Except.ok pid, st2, tr) := by
  unfold resolveProjectId
  by_cases hu : isUuid n = true
  · rw [if_pos hu]
    exact ⟨n, st, [], rfl⟩
  · rw [if_neg hu]
    cases hmg : mget st.projectCache (scopedKey t n) with
    | none =>
      obtain ⟨pid, st2, hq⟩ := projectQuery_ok env st n t h
      exact ⟨pid, st2, _, hq⟩
    | some c =>
      dsimp only []
      by_cases hc : c.isEmpty = true
      · rw [if_pos hc]
        obtain ⟨pid, st2, hq⟩ := projectQuery_ok env st n t h
        exact ⟨pid, st2, _, hq⟩
      · rw [if_neg hc]
        exact ⟨c, st, [], rfl⟩

theorem resolveProjectStep_ok (env : Env) (st : RState) (story : UserStory)
    (options : ImportOptions) (teamId : Str)
    (h : ∀ m tt, ∃ p ps, env.projects m tt = Except.ok (p :: ps)) :
    ∃ pid st2 tr, resolveProjectStep env st story options teamId =
      (Except.ok pid, st2, tr) := by
  unfold resolveProjectStep
  cases hpn : (story.project).or ((options.project).or
      options.config.defaultProject) with
  | none => exact ⟨none, st, [], rfl⟩
  | some pn =>
    dsimp only []
    by_cases he : pn.isEmpty = true
    · rw [if_pos he]
      exact ⟨none, st, [], rfl⟩
    · rw [if_neg he]
      obtain ⟨pid, st2, tr, hq⟩ := resolveProjectId_ok env st pn teamId h
      rw [hq]
      exact ⟨some pid, st2, tr, rfl⟩

theorem labelStep_ok (env : Env) (st : RState) (n : Str)
    (h : ∀ m, ∃ ls, env.issueLabels m = Except.ok ls) :
    ∃ contrib st2 tr, labelStep env st n =
      (Except.ok contrib, st2, tr) := by
  unfold labelStep labelQueryStep
  obtain ⟨ls, hl⟩ := h n
  cases hmg : mget st.labelCache n with
  | none =>
    rw [hl]
    cases ls with
    | nil => exact ⟨none, st, _, rfl⟩
    | cons a t => exact ⟨some a, _, _, rfl⟩
  | some c =>
    dsimp only []
    by_cases hc : c.isEmpty = true
    · rw [if_pos hc, hl]
      cases ls with
      | nil => exact ⟨none, st, _, rfl⟩
      | cons a t => exact ⟨some a, _, _, rfl⟩
    · rw [if_neg hc]
      exact ⟨some c, st, [], rfl⟩

theorem labelsLoop_ok (env : Env) (ns : List Str)
    (h : ∀ m, ∃ ls, env.issueLabels m = Except.ok ls) :
    ∀ st, ∃ ids st2 tr, labelsLoop env st ns = (Except.ok ids, st2, tr) := by
  induction ns with
  | nil => exact fun st => ⟨[], st, [], rfl⟩
  | cons n rest ih =>
    intro st
    obtain ⟨contrib, st2, tr, hstep⟩ := labelStep_ok env st n h
    obtain ⟨ids, st3, tr2, hloop⟩ := ih st2
    refine ⟨contrib.toList ++ ids, st3, tr ++ tr2, ?_⟩
    unfold labelsLoop
    rw [hstep]
    dsimp only []
    rw [hloop]

theorem resolveLabelsStep_ok (env : Env) (st : RState) (story : UserStory)
    (options : ImportOptions)
    (h : ∀ m, ∃ ls, env.issueLabels m = Except.ok ls) :
    ∃ lids st2 tr, resolveLabelsStep env st story options =
      (Except.ok lids, st2, tr) := by
  unfold resolveLabelsStep
  by_cases he : (deduplicateLabels story.labels
      options.config.defaultLabels).isEmpty = true
  · rw [if_pos he]
    exact ⟨none, st, [], rfl⟩
  · rw [if_neg he]
    unfold resolveLabelIds
    rw [if_neg he]
    obtain ⟨ids, st2, tr, hloop⟩ :=
      labelsLoop_ok env (deduplicateLabels story.labels
        options.config.defaultLabels) h st
    rw [hloop]
    exact ⟨some ids, st2, tr, rfl⟩

theorem resolveAssigneeStep_ok (env : Env) (st : RState) (story : UserStory)
    (h : ∀ b m, ∃ us, env.users b m = Except.ok us) :
    ∃ aid st2 tr, resolveAssigneeStep env st story =
      (Except.ok aid, st2, tr) := by
  unfold resolveAssigneeStep
  cases story.assignee with
  | none => exact ⟨none, st, [], rfl⟩
  | some a =>
    dsimp only []
    by_cases he : a.isEmpty = true
    · rw [if_pos he]
      exact ⟨none, st, [], rfl⟩
    · rw [if_neg he]
      unfold resolveAssigneeId
      cases hmg : mget st.userCache a with
      | some v =>
        cases v with
        | none => exact ⟨none, st, [], rfl⟩
        | some uid => exact ⟨some uid, st, [], rfl⟩
      | none =>
        obtain ⟨us, hu⟩ := h (isEmail a) a
        rw [hu]
        cases us with
        | nil => exact ⟨none, _, _, rfl⟩
        | cons u ut => exact ⟨some u, _, _, rfl⟩

theorem resolveStateStep_ok (env : Env) (st : RState) (story : UserStory)
    (teamId : Str)
    (h : ∀ tt m, ∃ ss, env.workflowStates tt m = Except.ok ss) :
    ∃ sid st2 tr, resolveStateStep env st story teamId =
      (Except.ok sid, st2, tr) := by
  unfold resolveStateStep
  cases story.status with
  | none => exact ⟨none, st, [], rfl⟩
  | some sn =>
    dsimp only []
    by_cases he : sn.isEmpty = true
    · rw [if_pos he]
      exact ⟨none, st, [], rfl⟩
    · rw [if_neg he]
      unfold resolveWorkflowStateId
      cases hmg : mget st.stateCache (stateKey teamId sn) with
      | some v => exact ⟨v, st, [], rfl⟩
      | none =>
        obtain ⟨ss, hs⟩ := h teamId sn
        rw [hs]
        cases ss with
        | nil => exact ⟨none, _, _, rfl⟩
        | cons s2 st2 => exact ⟨some s2, _, _, rfl⟩

theorem processStory_create (env : Env) (st : RState) (s : UserStory)
    (options : ImportOptions) (tn : Str)
    (hdry : options.dryRun = false)
    (hteff : (s.team).or ((options.team).or options.config.defaultTeam) =
      some tn)
    (htn : tn ≠ [])
    (hteams : ∀ m, ∃ t ts, env.teams m = Except.ok (t :: ts))
    (hprojects : ∀ m tt, ∃ p ps, env.projects m tt = Except.ok (p :: ps))
    (hlabels : ∀ m, ∃ ls, env.issueLabels m = Except.ok ls)
    (husers : ∀ b m, ∃ us, env.users b m = Except.ok us)
    (hstates : ∀ tt m, ∃ ss, env.workflowStates tt m = Except.ok ss)
    (hlin : truthyOS s.linearId = false) :
    ∃ inp st2 tr, inp.title = s.title ∧
      processStory env st s options =
        ((match env.createIssueRaw inp with
          | Except.error e =>
            { story := s, action := ImportAction.failed,
              error := some (createWrapMsg inp.title e) }
          | Except.ok (false, _) =>
            { story := s, action := ImportAction.failed,
              error := some (createFailMsg inp.title) }
          | Except.ok (true, iss) =>
            { story := s, action := ImportAction.created,
              linearId := some iss.identifier,
              linearUrl := some iss.url }), st2, tr) := by
  unfold processStory
  rw [hdry, if_neg (by decide), hteff]
  dsimp only []
  rw [if_neg (fun hcon => htn (List.isEmpty_iff.mp hcon))]
  obtain ⟨tid, st1, tr1, h1⟩ := resolveTeamId_ok env st tn hteams
  rw [h1]
  dsimp only []
  unfold processWithTeam
  obtain ⟨pid, st2, tr2, h2⟩ := resolveProjectStep_ok env st1 s options tid
    hprojects
  rw [h2]
  dsimp only []
  obtain ⟨lids, st3, tr3, h3⟩ := resolveLabelsStep_ok env st2 s options
    hlabels
  rw [h3]
  dsimp only []
  obtain ⟨aid, st4, tr4, h4⟩ := resolveAssigneeStep_ok env st3 s husers
  rw [h4]
  dsimp only []
  obtain ⟨sid, st5, tr5, h5⟩ := resolveStateStep_ok env st4 s tid hstates
  rw [h5]
  dsimp only []
  rw [hlin, if_neg (by decide)]
  unfold createStory createIssue
  cases hc : env.createIssueRaw
      (buildCreateInput s tid pid lids aid sid) with
  | error e =>
    refine ⟨buildCreateInput s tid pid lids aid sid, st5,
      tr1 ++ (tr2 ++ tr3 ++ tr4 ++ tr5 ++ [Call.createIssueCall (buildCreateInput s tid pid lids aid sid)]), rfl, ?_⟩
    rw [hc]
  | ok pr =>
    obtain ⟨succ, iss⟩ := pr
    cases succ with
    | false =>
      refine ⟨buildCreateInput s tid pid lids aid sid, st5,
        tr1 ++ (tr2 ++ tr3 ++ tr4 ++ tr5 ++ [Call.createIssueCall (buildCreateInput s tid pid lids aid sid)]), rfl, ?_⟩
      rw [hc]
    | true =>
      refine ⟨buildCreateInput s tid pid lids aid sid, st5,
        tr1 ++ (tr2 ++ tr3 ++ tr4 ++ tr5 ++ [Call.createIssueCall (buildCreateInput s tid pid lids aid sid)]), rfl, ?_⟩
      rw [hc]

theorem processStory_update (env : Env) (st : RState) (s : UserStory)
    (options : ImportOptions) (tn v : Str)
    (hdry : options.dryRun = false)
    (hteff : (s.team).or ((options.team).or options.config.defaultTeam) =
      some tn)
    (htn : tn ≠ [])
    (hteams : ∀ m, ∃ t ts, env.teams m = Except.ok (t :: ts))
    (hprojects : ∀ m tt, ∃ p ps, env.projects m tt = Except.ok (p :: ps))
    (hlabels : ∀ m, ∃ ls, env.issueLabels m = Except.ok ls)
    (husers : ∀ b m, ∃ us, env.users b m = Except.ok us)
    (hstates : ∀ tt m, ∃ ss, env.workflowStates tt m = Except.ok ss)
    (hlin : s.linearId = some v) (hv : v ≠ []) :
    ∃ inp st2 tr,
      processStory env st s options =
        ((match env.updateIssueRaw v inp with
          | Except.error e =>
            { story := s, action := ImportAction.failed,
              error := some (updateWrapMsg v e) }
          | Except.ok (false, _) =>
            { story := s, action := ImportAction.failed,
              error := some (updateFailMsg v) }
          | Except.ok (true, _) =>
            { story := s, action := ImportAction.updated,
              linearId := some v,
              linearUrl := s.linearUrl }), st2, tr) := by
  have htr : truthyOS s.linearId = true := by
    rw [hlin]
    simp [truthyOS, hv]
  have hget : s.linearId.getD [] = v := by
    rw [hlin]
    rfl
  unfold processStory
  rw [hdry, if_neg (by decide), hteff]
  dsimp only []
  rw [if_neg (fun hcon => htn (List.isEmpty_iff.mp hcon))]
  obtain ⟨tid, st1, tr1, h1⟩ := resolveTeamId_ok env st tn hteams
  rw [h1]
  dsimp only []
  unfold processWithTeam
  obtain ⟨pid, st2, tr2, h2⟩ := resolveProjectStep_ok env st1 s options tid
    hprojects
  rw [h2]
  dsimp only []
  obtain ⟨lids, st3, tr3, h3⟩ := resolveLabelsStep_ok env st2 s options
    hlabels
  rw [h3]
  dsimp only []
  obtain ⟨aid, st4, tr4, h4⟩ := resolveAssigneeStep_ok env st3 s husers
  rw [h4]
  dsimp only []
  obtain ⟨sid, st5, tr5, h5⟩ := resolveStateStep_ok env st4 s tid hstates
  rw [h5]
  dsimp only []
  rw [htr, if_pos rfl]
  unfold updateStory updateIssue
  rw [hget]
  cases hc : env.updateIssueRaw v
      (buildUpdateInput s pid lids aid sid) with
  | error e =>
    refine ⟨buildUpdateInput s pid lids aid sid, st5,
      tr1 ++ (tr2 ++ tr3 ++ tr4 ++ tr5 ++ [Call.updateIssueCall v (buildUpdateInput s pid lids aid sid)]), ?_⟩
    rw [hc]
  | ok pr =>
    obtain ⟨succ, ident⟩ := pr
    cases succ with
    | false =>
      refine ⟨buildUpdateInput s pid lids aid sid, st5,
        tr1 ++ (tr2 ++ tr3 ++ tr4 ++ tr5 ++ [Call.updateIssueCall v (buildUpdateInput s pid lids aid sid)]), ?_⟩
      rw [hc]
    | true =>
      refine ⟨buildUpdateInput s pid lids aid sid, st5,
        tr1 ++ (tr2 ++ tr3 ++ tr4 ++ tr5 ++ [Call.updateIssueCall v (buildUpdateInput s pid lids aid sid)]), ?_⟩
      rw [hc]

/-- **C2** (`linearstories`): create-vs-update selection in `processStory`.
With `dryRun` the story is skipped with no resolver or gateway call and an
untouched resolver state.  Otherwise, when an effective team name is
configured and every resolver query and the gateway succeed, a story with
null `linearId` yields a `created` result and a story with a non-empty
`linearId` yields an `updated` result. -/
theorem linearstories_C2_create_vs_update (env : Env) (st : RState)
    (story : UserStory) (options : ImportOptions)
    (hteams : ∀ m, ∃ t ts, env.teams m = Except.ok (t :: ts))
    (hprojects : ∀ m tt, ∃ p ps, env.projects m tt = Except.ok (p :: ps))
    (hlabels : ∀ m, ∃ ls, env.issueLabels m = Except.ok ls)
    (husers : ∀ b m, ∃ us, env.users b m = Except.ok us)
    (hstates : ∀ tt m, ∃ ss, env.workflowStates tt m = Except.ok ss)
    (hcreate : ∀ inp, ∃ iss, env.createIssueRaw inp = Except.ok (true, iss))
    (hupdate : ∀ i inp, ∃ r, env.updateIssueRaw i inp = Except.ok (true, r)) :
    (options.dryRun = true →
      processStory env st story options =
        ({ story := story, action := ImportAction.skipped }, st, [])) ∧
    (options.dryRun = false →
      ∀ tn, (story.team).or ((options.team).or options.config.defaultTeam) =
        some tn → tn ≠ [] →
      ((story.linearId = none →
        (processStory env st story options).1.action =
          ImportAction.created) ∧
      (∀ v, story.linearId = some v → v ≠ [] →
        (processStory env st story options).1.action =
          ImportAction.updated))) := by
  constructor
  · intro hd
    unfold processStory
    rw [hd, if_pos rfl]
  · intro hdry tn hteff htn
    constructor
    · intro hlin0
      obtain ⟨inp, st2, tr, htitle, heq⟩ := processStory_create env st story
        options tn hdry hteff htn hteams hprojects hlabels husers hstates
        (by rw [hlin0]; rfl)
      rw [heq]
      obtain ⟨iss, hiss⟩ := hcreate inp
      rw [hiss]
    · intro v hlin0 hv
      obtain ⟨inp, st2, tr, heq⟩ := processStory_update env st story
        options tn v hdry hteff htn hteams hprojects hlabels husers hstates
        hlin0 hv
      rw [heq]
      obtain ⟨r, hr⟩ := hupdate v inp
      rw [hr]

def c2wenv : Env :=
  { teams := fun _ => Except.ok ["team-uuid".toList]
    projects := fun _ _ => Except.ok ["proj-uuid".toList]
    issueLabels := fun _ => Except.ok ["label-uuid".toList]
    users := fun _ _ => Except.ok ["user-uuid".toList]
    workflowStates := fun _ _ => Except.ok ["state-uuid".toList]
    createIssueRaw := fun _ => Except.ok (true,
      { id := "id1".toList
        identifier := "ENG-1".toList
        url := "https://linear.app/e/ENG-1".toList })
    updateIssueRaw := fun _ _ => Except.ok (true, "ENG-7".toList)
    issuesRaw := fun _ => Except.ok []
    readFile := fun _ => [] }

def c2wOpts : ImportOptions :=
  { config := { defaultTeam := some ("Engineering".toList) } }

def c2wNew : UserStory :=
  { title := "New story".toList
    linearId := none
    linearUrl := none
    priority := none
    labels := []
    estimate := none
    assignee := none
    status := none
    body := []
    project := none
    team := none }

def c2wUpd : UserStory :=
  { c2wNew with
    title := "Old story".toList
    linearId := some ("ENG-7".toList) }

theorem linearstories_C2_witness :
    (processStory c2wenv {} c2wNew c2wOpts).1.action =
      ImportAction.created ∧
    (processStory c2wenv {} c2wUpd c2wOpts).1.action =
      ImportAction.updated ∧
    processStory c2wenv {} c2wNew { c2wOpts with dryRun := true } =
      ({ story := c2wNew, action := ImportAction.skipped }, {}, []) := by
  refine ⟨?_, ?_, ?_⟩
  · exact ((linearstories_C2_create_vs_update c2wenv {} c2wNew c2wOpts
      (fun m => ⟨_, _, rfl⟩) (fun m tt => ⟨_, _, rfl⟩) (fun m => ⟨_, rfl⟩)
      (fun b m => ⟨_, rfl⟩) (fun tt m => ⟨_, rfl⟩) (fun inp => ⟨_, rfl⟩)
      (fun i inp => ⟨_, rfl⟩)).2 rfl ("Engineering".toList) rfl
      (by decide)).1 rfl
  · exact ((linearstories_C2_create_vs_update c2wenv {} c2wUpd c2wOpts
      (fun m => ⟨_, _, rfl⟩) (fun m tt => ⟨_, _, rfl⟩) (fun m => ⟨_, rfl⟩)
      (fun b m => ⟨_, rfl⟩) (fun tt m => ⟨_, rfl⟩) (fun inp => ⟨_, rfl⟩)
      (fun i inp => ⟨_, rfl⟩)).2 rfl ("Engineering".toList) rfl
      (by decide)).2 ("ENG-7".toList) rfl (by decide)
  · exact (linearstories_C2_create_vs_update c2wenv {} c2wNew
      { c2wOpts with dryRun := true }
      (fun m => ⟨_, _, rfl⟩) (fun m tt => ⟨_, _, rfl⟩) (fun m => ⟨_, rfl⟩)
      (fun b m => ⟨_, rfl⟩) (fun tt m => ⟨_, rfl⟩) (fun inp => ⟨_, rfl⟩)
      (fun i inp => ⟨_, rfl⟩)).1 rfl

def c3wIss : CreatedIssue :=
  { id := "id9".toList
    identifier := "COR-9".toList
    url := "https://linear.app/c/COR-9".toList }

def c5env : Env :=
  { teams := fun _ => Except.ok ["team-uuid".toList]
    projects := fun _ _ => Except.ok ["proj-uuid".toList]
    issueLabels := fun _ => Except.ok ["label-uuid".toList]
    users := fun _ _ => Except.ok ["user-uuid".toList]
    workflowStates := fun _ _ => Except.ok ["state-uuid".toList]
    createIssueRaw := fun _ => Except.ok (true, c3wIss)
    updateIssueRaw := fun _ _ => Except.ok (true, "COR-1".toList)
    issuesRaw := fun _ => Except.ok []
    readFile := fun p =>
      if p = "bad.md".toList then "Some notes without any heading".toList
      else "## Good story".toList }

def c5opts : ImportOptions :=
  { files := ["bad.md".toList, "good.md".toList]
    config := { defaultTeam := some ("Core".toList) } }

/-- Counterexample to C5: in a two-document run whose first document has no
H2 heading, `importStories` returns the parse error itself — no summary, no
remote calls — even though the second document alone parses fine and would
import.  The parse error aborts the whole run, not just that document. -/
theorem linearstories_C5_counterexample :
    importStories c5env c5opts =
      (Except.error (noH2Msg ("bad.md".toList)), {}, []) ∧
    ∃ d, parseMarkdownFile (c5env.readFile ("good.md".toList))
      ("good.md".toList) = Except.ok d := by
  refine ⟨by decide, ⟨_, rfl⟩⟩

/-- **C5** (amended): a failed parse of any document aborts the whole run at
that document: `importStories` returns that document's parse error, with no
summary and no remote calls; the remaining documents are not processed.  (The
original claim — that the run continues with the remaining documents — is
refuted by `c5env`/`c5opts`.) -/
theorem linearstories_C5_parse_abort (env : Env) (options : ImportOptions)
    (path : Str) (rest : List Str) (e : Str)
    (hfiles : options.files = path :: rest)
    (hparse : parseMarkdownFile (env.readFile path) path = Except.error e) :
    importStories env options = (Except.error e, {}, []) := by
  have hfs : fileStep env {} options path = (Except.error e, {}, []) := by
    unfold fileStep
    dsimp only []
    rw [hparse]
  have hfl : filesLoop env {} options (path :: rest) =
      (Except.error e, {}, []) := by
    unfold filesLoop
    rw [hfs]
  unfold importStories
  rw [hfiles, hfl]

theorem linearstories_C5_witness :
    importStories c5env c5opts =
      (Except.error (noH2Msg ("bad.md".toList)), {}, []) :=
  linearstories_C5_parse_abort c5env c5opts ("bad.md".toList)
    (["good.md".toList]) (noH2Msg ("bad.md".toList)) rfl (by decide)

/-! ### C6: the exporter (src/sync/exporter.ts and src/linear/filters.ts) -/

/-- `ExportFilters` (src/types.ts): all fields optional. -/
structure ExportFilters where
  project : Option Str := none
  issues : Option (List Str) := none
  status : Option Str := none
  assignee : Option Str := none
  creator : Option Str := none
deriving DecidableEq, Repr

/-- `ExportOptions` (src/sync/exporter.ts). -/
structure ExportOptions where
  config : ResolvedConfig := {}
  filters : ExportFilters := {}
  team : Option Str := none
  outputPath : Str := []
deriving DecidableEq, Repr

/-- `IssueFilterInput` (src/linear/filters.ts). -/
structure IssueFilterInput where
  projectId : Option Str := none
  identifiers : Option (List Str) := none
  statusName : Option Str := none
  assigneeEmail : Option Str := none
  creatorEmail : Option Str := none
deriving DecidableEq, Repr

/-- `buildFilterInput` (src/sync/exporter.ts): resolve the project name to an
id when both project and team are truthy; the `catch` block is empty, so on
any resolution failure `input.projectId` is simply never set.  The remaining
fields are copied under JS truthiness. -/
def buildFilterInput (env : Env) (st : RState) (filters : ExportFilters)
    (team : Option Str) : IssueFilterInput × RState × List Call :=
  let pj :=
    if truthyOS filters.project && truthyOS team then
      match resolveTeamId env st (team.getD []) with
      | (Except.error _, st2, tr) => ((none : Option Str), st2, tr)
      | (Except.ok tid, st2, tr) =>
        match resolveProjectId env st2 (filters.project.getD []) tid with
        | (Except.error _, st3, tr2) => (none, st3, tr ++ tr2)
        | (Except.ok pid, st3, tr2) => (some pid, st3, tr ++ tr2)
    else (none, st, [])
  match pj with
  | (pid, st2, tr) =>
    ({ projectId := pid
       identifiers :=
         match filters.issues with
         | some l => if !l.isEmpty then some l else none
         | none => none
       statusName := if truthyOS filters.status then filters.status else none
       assigneeEmail :=
         if truthyOS filters.assignee then filters.assignee else none
       creatorEmail :=
         if truthyOS filters.creator then filters.creator else none },
     st2, tr)

/-- The `^([A-Za-z]+)-(\d+)$` match of `buildIssueFilter`: the letter part
and the digit part, or `none` when the identifier does not have that shape. -/
def idMatch (s : Str) : Option (Str × Str) :=
  let letters := s.takeWhile Char.isAlpha
  match s.drop letters.length with
  | '-' :: digits =>
    if !letters.isEmpty && !digits.isEmpty && digits.all Char.isDigit then
      some (letters, digits)
    else none
  | _ => none

/-- `match[1].toUpperCase()`. -/
def upperKey (s : Str) : Str := s.map Char.toUpper

/-- JS `Set` insertion order: first occurrences, in order. -/
def dedupFirst (l : List Str) : List Str :=
  l.foldl (fun acc x => if acc.contains x then acc else acc ++ [x]) []

/-- `buildIssueFilter` (src/linear/filters.ts). -/
def buildIssueFilter (input : IssueFilterInput) : IssueFilter :=
  let f1 : IssueFilter :=
    if truthyOS input.projectId then { projectIdEq := input.projectId }
    else {}
  let f2 :=
    match input.identifiers with
    | some ids =>
      if !ids.isEmpty then
        let parsed := ids.filterMap idMatch
        let numbers := parsed.map (fun pr => parseInt pr.2)
        let teamKeys := dedupFirst (parsed.map (fun pr => upperKey pr.1))
        let fa :=
          if !numbers.isEmpty then { f1 with numberIn := some numbers }
          else f1
        match teamKeys with
        | [k] => { fa with teamKeyEq := some k }
        | _ => fa
      else f1
    | none => f1
  let f3 :=
    if truthyOS input.statusName then
      { f2 with stateNameEqIgnoreCase := input.statusName }
    else f2
  let f4 :=
    if truthyOS input.assigneeEmail then
      { f3 with assigneeEmailEq := input.assigneeEmail }
    else f3
  if truthyOS input.creatorEmail then
    { f4 with creatorEmailEq := input.creatorEmail }
  else f4

/-- `issueToUserStory` (src/sync/exporter.ts). -/
def issueToUserStory (issue : LinearIssueData) : UserStory :=
  { title := issue.title
    linearId := some issue.identifier
    linearUrl := some issue.url
    priority := issue.priority
    labels := issue.labelNames
    estimate := issue.estimate
    assignee := issue.assigneeEmail
    status := issue.stateName
    body := issue.description.getD []
    project := issue.projectName
    team := issue.teamName }

/-- `exportStories` (src/sync/exporter.ts): fresh resolver, build the filter,
fetch, convert, build the optional frontmatter, serialize and write. -/
def exportStories (env : Env) (options : ExportOptions) :
    Except Str (Nat × Str) × RState × List Call :=
  match buildFilterInput env {} options.filters options.team with
  | (filterInput, st2, tr) =>
    let filter := buildIssueFilter filterInput
    match env.issuesRaw filter with
    | Except.error e =>
      (Except.error e, st2, tr ++ [Call.fetchIssuesCall filter])
    | Except.ok issues =>
      let stories := issues.map issueToUserStory
      let fm : FileFrontmatter :=
        { project :=
            if truthyOS options.filters.project then options.filters.project
            else none
          team := if truthyOS options.team then options.team else none }
      (Except.ok (stories.length, options.outputPath), st2,
        tr ++ [Call.fetchIssuesCall filter,
          Call.writeFileCall options.outputPath
            (serializeStories stories (some fm))])

/-- **C6.** When both a project filter and a team are supplied and the
resolution of the project name fails, `exportStories` indeed does not abort
(it returns a count and the output path, having fetched, serialized and
written) — but the raw project name is NOT passed through into the remote
query: the empty `catch` block drops the project constraint entirely, so the
one issues query of the run carries no project condition at all. -/
theorem linearstories_C6_project_filter_dropped (env : Env)
    (options : ExportOptions) (p t e : Str)
    (hp : options.filters.project = some p) (hpne : p ≠ [])
    (ht : options.team = some t) (htne : t ≠ []) (htu : isUuid t = false)
    (hiss : options.filters.issues = none)
    (hstat : options.filters.status = none)
    (hass : options.filters.assignee = none)
    (hcre : options.filters.creator = none)
    (hteams : env.teams t = Except.error e)
    (hfetch : ∀ f, ∃ iss, env.issuesRaw f = Except.ok iss) :
    ∃ n st tr,
      exportStories env options =
        (Except.ok (n, options.outputPath), st, tr) ∧
      ∀ fl, Call.fetchIssuesCall fl ∈ tr → fl.projectIdEq = none := by
  have hptr : truthyOS (some p) = true := by
    cases p with
    | nil => exact absurd rfl hpne
    | cons a l => rfl
  have httr : truthyOS (some t) = true := by
    cases t with
    | nil => exact absurd rfl htne
    | cons a l => rfl
  have hrt : resolveTeamId env ({} : RState) t =
      (Except.error e, {}, [Call.teamsQuery t]) := by
    unfold resolveTeamId
    rw [htu]
    rw [if_neg (by decide)]
    have hmg : mget ({} : RState).teamCache t = none := rfl
    rw [hmg]
    dsimp only []
    unfold teamQuery
    rw [hteams]
  have hbf : buildFilterInput env {} options.filters options.team =
      ({}, {}, [Call.teamsQuery t]) := by
    unfold buildFilterInput
    rw [hp, ht, hiss, hstat, hass, hcre, hptr, httr]
    dsimp only []
    rw [if_pos (show ((true && true) = true) from rfl),
      show (some t).getD [] = t from rfl, hrt]
    rfl
  obtain ⟨iss, hok⟩ := hfetch (buildIssueFilter {})
  unfold exportStories
  rw [hbf]
  dsimp only []
  rw [hok]
  dsimp only []
  refine ⟨(iss.map issueToUserStory).length, {}, _, rfl, ?_⟩
  intro fl hfl
  have hfl2 : fl = buildIssueFilter {} := by
    rcases List.mem_cons.mp hfl with h1 | h2
    · exact absurd h1 (by simp)
    rcases List.mem_cons.mp h2 with h3 | h4
    · exact (Call.fetchIssuesCall.injEq fl (buildIssueFilter {})).mp h3
    rcases List.mem_cons.mp h4 with h5 | h6
    · exact absurd h5 (by simp)
    · exact absurd h6 (List.not_mem_nil _)
  rw [hfl2]
  rfl

def c6wenv : Env :=
  { teams := fun _ => Except.error ("network down".toList)
    projects := fun _ _ => Except.ok ["proj-uuid".toList]
    issueLabels := fun _ => Except.ok []
    users := fun _ _ => Except.ok []
    workflowStates := fun _ _ => Except.ok []
    createIssueRaw := fun _ => Except.error "unused".toList
    updateIssueRaw := fun _ _ => Except.error "unused".toList
    issuesRaw := fun _ => Except.ok []
    readFile := fun _ => [] }

def c6wOpts : ExportOptions :=
  { filters := { project := some ("Apollo".toList) }
    team := some ("Core".toList)
    outputPath := "out.md".toList }

theorem linearstories_C6_witness :
    ∃ n st tr,
      exportStories c6wenv c6wOpts =
        (Except.ok (n, c6wOpts.outputPath), st, tr) ∧
      ∀ fl, Call.fetchIssuesCall fl ∈ tr → fl.projectIdEq = none :=
  linearstories_C6_project_filter_dropped c6wenv c6wOpts
    ("Apollo".toList) ("Core".toList) ("network down".toList)
    rfl (by decide) rfl (by decide) (by decide) rfl rfl rfl rfl rfl
    (fun f => ⟨[], rfl⟩)

end LS
